import Mathlib

/-!
# Mutex comparison benchmark: verification development

Shallow embedding of `bench.cpp`: the Dekker, Peterson and test-and-set
("feather") locks, and the counter-checking harness `loop`.

Every lock operation is cut into its individual loads and stores of the shared
variables.  A thread-local program counter (named after the source line about
to be executed) says which access comes next; one `step` performs exactly one
access.  Interleaving these steps gives the sequentially consistent
transition systems; running one thread's steps alone gives the sequential
meaning of `lock` and `unlock`.

Participant ids and the `turn` token are `size_t` in the source.  They are
natural numbers here; the only arithmetic on them is `1 - i` with `i` equal to
`0` or `1`, which never wraps.
-/

namespace MutexComparison

/-! ## Shared data -/

/-- A `std::array<std::atomic<bool>, 2>`.  Indices other than `0` and `1` are
out of bounds in the source; here they alias slot `1` and every theorem
restricts the index to `{0, 1}`. -/
structure AtomicBool2 where
  e0 : Bool
  e1 : Bool
  deriving DecidableEq

/-- Reading slot `i`. -/
def AtomicBool2.load (a : AtomicBool2) (i : Nat) : Bool :=
  if i = 0 then a.e0 else a.e1

/-- Writing `v` to slot `i`. -/
def AtomicBool2.store (a : AtomicBool2) (i : Nat) (v : Bool) : AtomicBool2 :=
  if i = 0 then { a with e0 := v } else { a with e1 := v }

/-! ## Dekker lock (bench.cpp:34-61) -/

/-- Data members of `dekker_mutex` (bench.cpp:35-36). -/
structure dekker_mutex where
  want : AtomicBool2
  turn : Nat
  deriving DecidableEq

/-- Constructor (bench.cpp:39-42): `turn(0)` and both flags stored `false`. -/
def dekker_mutex.init : dekker_mutex :=
  { want := (AtomicBool2.store (AtomicBool2.store ⟨false, false⟩ 0 false) 1 false), turn := 0 }

/-- Where a participant stands in `lock; critical section; unlock` of the
Dekker lock.  `lNN` means: the next shared access of this participant is the
one on source line `NN`.  `cs` is the critical section: `lock` has returned
and `unlock` has not started (its first access, line 58, is next). -/
inductive DekkerPc
  | l47
  | l48
  | l49
  | l50
  | l51
  | l52
  | cs
  | l59
  deriving DecidableEq, Fintype

/-- One shared-memory access of participant `i` (bench.cpp:46-60).
* `l47`: `want.at(i).store(true)`
* `l48`: `while (want[1 - i].load())` — leave the loop (return) when false
* `l49`: `if (turn != i)`
* `l50`: `want[i].store(false)`
* `l51`: `while (turn != i);`
* `l52`: `want[i].store(true)`, then back to the loop test on line 48
* `cs` : `turn = 1 - i` (line 58)
* `l59`: `want.at(i).store(false)`; the harness loop then calls `lock` again -/
def dekker_mutex.step (i : Nat) : DekkerPc × dekker_mutex → DekkerPc × dekker_mutex
  | (.l47, m) => (.l48, { m with want := m.want.store i true })
  | (.l48, m) => if m.want.load (1 - i) then (.l49, m) else (.cs, m)
  | (.l49, m) => if m.turn ≠ i then (.l50, m) else (.l48, m)
  | (.l50, m) => (.l51, { m with want := m.want.store i false })
  | (.l51, m) => if m.turn ≠ i then (.l51, m) else (.l52, m)
  | (.l52, m) => (.l48, { m with want := m.want.store i true })
  | (.cs, m) => (.l59, { m with turn := 1 - i })
  | (.l59, m) => (.l47, { m with want := m.want.store i false })

/-- The step just taken from this configuration was a loop test that held, so
that another spin iteration follows: the outer `while` on line 48 or the inner
busy-wait on line 51. -/
def dekker_mutex.spins (i : Nat) : DekkerPc × dekker_mutex → Bool
  | (.l48, m) => m.want.load (1 - i)
  | (.l51, m) => decide (m.turn ≠ i)
  | _ => false

/-- Interleaved system of the two participants: the lock plus one program
counter per participant. -/
structure DekkerSys where
  m : dekker_mutex
  pc0 : DekkerPc
  pc1 : DekkerPc
  deriving DecidableEq

/-- Program counter of participant `i`. -/
def DekkerSys.pc (s : DekkerSys) (i : Nat) : DekkerPc :=
  if i = 0 then s.pc0 else s.pc1

/-- Participant `i` performs its next access; ids other than `0`, `1` name no
participant and change nothing. -/
def DekkerSys.step (i : Nat) (s : DekkerSys) : DekkerSys :=
  if i = 0 then
    { s with m := (dekker_mutex.step 0 (s.pc0, s.m)).2, pc0 := (dekker_mutex.step 0 (s.pc0, s.m)).1 }
  else if i = 1 then
    { s with m := (dekker_mutex.step 1 (s.pc1, s.m)).2, pc1 := (dekker_mutex.step 1 (s.pc1, s.m)).1 }
  else s

/-- Both participants are about to call `lock` on a freshly built lock. -/
def DekkerSys.init : DekkerSys :=
  { m := dekker_mutex.init, pc0 := .l47, pc1 := .l47 }

/-- States reachable by interleaving the two participants. -/
inductive DekkerSys.Reachable : DekkerSys → Prop
  | init : DekkerSys.Reachable DekkerSys.init
  | step (i : Nat) (s : DekkerSys) : i < 2 → DekkerSys.Reachable s →
      DekkerSys.Reachable (DekkerSys.step i s)

/-- Both participants are in the critical section. -/
def DekkerSys.bothInCS (s : DekkerSys) : Prop :=
  s.pc0 = .cs ∧ s.pc1 = .cs

/-- The flag value that goes with a program counter: raised from after line
47/52 until line 50/59 lowers it. -/
def DekkerPc.wants : DekkerPc → Bool
  | .l47 => false
  | .l48 => true
  | .l49 => true
  | .l50 => true
  | .l51 => false
  | .l52 => false
  | .cs => true
  | .l59 => true

/-- Inductive invariant behind mutual exclusion. -/
def DekkerSys.Inv (s : DekkerSys) : Prop :=
  s.m.want.e0 = s.pc0.wants ∧ s.m.want.e1 = s.pc1.wants ∧
  ¬ ((s.pc0 = .cs ∨ s.pc0 = .l59) ∧ (s.pc1 = .cs ∨ s.pc1 = .l59))


/-! ## Peterson lock (bench.cpp:63-80) -/

/-- Data members of `peterson_mutex` (bench.cpp:64-65). -/
structure peterson_mutex where
  flag : AtomicBool2
  turn : Nat
  deriving DecidableEq

/-- Constructor (bench.cpp:68): `flag()` value-initialised, `turn(0)`. -/
def peterson_mutex.init : peterson_mutex :=
  { flag := ⟨false, false⟩, turn := 0 }

/-- Where a participant stands in `lock; critical section; unlock` of the
Peterson lock.  `l72`, `l73`: the stores of lines 72 and 73 come next.
`l74`: the load of `flag[1 - i]`, left operand of the `&&` on line 74, comes
next.  `l74t`: that load gave `true` and the load of `turn`, right operand,
comes next.  `cs`: `lock` has returned; the store of line 78 comes next. -/
inductive PetersonPc
  | l72
  | l73
  | l74
  | l74t
  | cs
  deriving DecidableEq, Fintype

/-- One shared-memory access of participant `i` (bench.cpp:71-79).
* `l72` : `flag.at(i).store(true)`
* `l73` : `turn = 1 - i`
* `l74` : `flag[1 - i].load()`; `&&` short-circuits, so `false` ends the loop
* `l74t`: `turn != i`; `true` means spin again, `false` ends the loop
* `cs`  : `flag[i].store(false)` (line 78); the harness then calls `lock` again -/
def peterson_mutex.step (i : Nat) : PetersonPc × peterson_mutex → PetersonPc × peterson_mutex
  | (.l72, m) => (.l73, { m with flag := m.flag.store i true })
  | (.l73, m) => (.l74, { m with turn := 1 - i })
  | (.l74, m) => if m.flag.load (1 - i) then (.l74t, m) else (.cs, m)
  | (.l74t, m) => if m.turn ≠ i then (.l74, m) else (.cs, m)
  | (.cs, m) => (.l72, { m with flag := m.flag.store i false })

/-- The coarser reading of line 74: the whole spin condition
`flag[1 - i].load() && turn != i` is evaluated in one atomic step.  All other
accesses are as in `peterson_mutex.step`. -/
def peterson_mutex.stepCond (i : Nat) : PetersonPc × peterson_mutex → PetersonPc × peterson_mutex
  | (.l74, m) => if m.flag.load (1 - i) && decide (m.turn ≠ i) then (.l74, m) else (.cs, m)
  | c => peterson_mutex.step i c

/-- The spin condition of line 74 held as a whole: its second operand was
evaluated and was true. -/
def peterson_mutex.spins (i : Nat) : PetersonPc × peterson_mutex → Bool
  | (.l74t, m) => decide (m.turn ≠ i)
  | _ => false

/-- Interleaved system of the two participants on a Peterson lock. -/
structure PetersonSys where
  m : peterson_mutex
  pc0 : PetersonPc
  pc1 : PetersonPc
  deriving DecidableEq

/-- Program counter of participant `i`. -/
def PetersonSys.pc (s : PetersonSys) (i : Nat) : PetersonPc :=
  if i = 0 then s.pc0 else s.pc1

/-- Participant `i` performs its next access, by the step function `f`. -/
def PetersonSys.stepWith
    (f : Nat → PetersonPc × peterson_mutex → PetersonPc × peterson_mutex)
    (i : Nat) (s : PetersonSys) : PetersonSys :=
  if i = 0 then
    { s with m := (f 0 (s.pc0, s.m)).2, pc0 := (f 0 (s.pc0, s.m)).1 }
  else if i = 1 then
    { s with m := (f 1 (s.pc1, s.m)).2, pc1 := (f 1 (s.pc1, s.m)).1 }
  else s

/-- Participant `i` performs its next access, every load being a step. -/
def PetersonSys.step (i : Nat) (s : PetersonSys) : PetersonSys :=
  PetersonSys.stepWith peterson_mutex.step i s

/-- Participant `i` performs its next access, the spin condition being one
step. -/
def PetersonSys.stepCond (i : Nat) (s : PetersonSys) : PetersonSys :=
  PetersonSys.stepWith peterson_mutex.stepCond i s

/-- Both participants are about to call `lock` on a freshly built lock. -/
def PetersonSys.init : PetersonSys :=
  { m := peterson_mutex.init, pc0 := .l72, pc1 := .l72 }

/-- States reachable by interleaving the two participants, each load of the
spin condition being its own step. -/
inductive PetersonSys.Reachable : PetersonSys → Prop
  | init : PetersonSys.Reachable PetersonSys.init
  | step (i : Nat) (s : PetersonSys) : i < 2 → PetersonSys.Reachable s →
      PetersonSys.Reachable (PetersonSys.step i s)

/-- States reachable when each evaluation of the spin condition is one step. -/
inductive PetersonSys.ReachableCond : PetersonSys → Prop
  | init : PetersonSys.ReachableCond PetersonSys.init
  | step (i : Nat) (s : PetersonSys) : i < 2 → PetersonSys.ReachableCond s →
      PetersonSys.ReachableCond (PetersonSys.stepCond i s)

/-- Both participants are in the critical section. -/
def PetersonSys.bothInCS (s : PetersonSys) : Prop :=
  s.pc0 = .cs ∧ s.pc1 = .cs

/-- The flag value that goes with a program counter. -/
def PetersonPc.flagged : PetersonPc → Bool
  | .l72 => false
  | _ => true

/-- The participant has written `turn` and not yet released. -/
def PetersonPc.contending : PetersonPc → Bool
  | .l74 => true
  | .l74t => true
  | .cs => true
  | _ => false

/-- Inductive invariant behind mutual exclusion: the flags follow the program
counters, and a participant in the critical section while the other one is
past its `turn` write holds the turn. -/
def PetersonSys.Inv (s : PetersonSys) : Prop :=
  s.m.flag.e0 = s.pc0.flagged ∧ s.m.flag.e1 = s.pc1.flagged ∧
  (s.pc0 = .cs → s.pc1.contending = true → s.m.turn = 0) ∧
  (s.pc1 = .cs → s.pc0.contending = true → s.m.turn = 1)

/-! ## Test-and-set spin lock (bench.cpp:100-117) -/

/-- Data member of `feather_mutex` (bench.cpp:101): a `std::atomic_flag`,
`true` when set. -/
structure feather_mutex where
  m : Bool
  deriving DecidableEq

/-- Constructor (bench.cpp:104): the flag starts clear. -/
def feather_mutex.init : feather_mutex :=
  { m := false }

/-- Member `std::atomic_flag::test_and_set`: one atomic read-modify-write that
returns the old value and leaves the flag set. -/
def feather_mutex.test_and_set (f : feather_mutex) : Bool × feather_mutex :=
  (f.m, { m := true })

/-- Member `std::atomic_flag::clear`. -/
def feather_mutex.clear (_f : feather_mutex) : feather_mutex :=
  { m := false }

/-- Where a participant stands: `l109` before a `test_and_set`, `l110` before
the `yield` that follows a failed attempt, `cs` in the critical section (the
`clear` of line 115 comes next). -/
inductive FeatherPc
  | l109
  | l110
  | cs
  deriving DecidableEq

/-- One step of a participant (bench.cpp:107-116); the participant id is
ignored by the source (`(void) i`).
* `l109`: `while (m.test_and_set())` — return when the old value was `false`
* `l110`: `std::this_thread::yield()`, no shared access
* `cs`  : `m.clear()`; the harness then calls `lock` again -/
def feather_mutex.step : FeatherPc × feather_mutex → FeatherPc × feather_mutex
  | (.l109, f) => if f.test_and_set.1 then (.l110, f.test_and_set.2) else (.cs, f.test_and_set.2)
  | (.l110, f) => (.l109, f)
  | (.cs, f) => (.l109, f.clear)

/-- The `test_and_set` of line 109 returned `true`: another spin iteration. -/
def feather_mutex.spins : FeatherPc × feather_mutex → Bool
  | (.l109, f) => f.m
  | _ => false

/-- Interleaved system of any number of participants on a spin lock: the flag
and a program counter for every participant id. -/
structure FeatherSys where
  m : feather_mutex
  pc : Nat → FeatherPc

/-- Participant `i` of `n` performs its next step; ids from `n` on name no
participant and change nothing. -/
def FeatherSys.step (n i : Nat) (s : FeatherSys) : FeatherSys :=
  if i < n then
    { m := (feather_mutex.step (s.pc i, s.m)).2,
      pc := Function.update s.pc i (feather_mutex.step (s.pc i, s.m)).1 }
  else s

/-- Every participant is about to call `lock` on a freshly built lock. -/
def FeatherSys.init : FeatherSys :=
  { m := feather_mutex.init, pc := fun _ => .l109 }

/-- States reachable by interleaving `n` participants. -/
inductive FeatherSys.Reachable (n : Nat) : FeatherSys → Prop
  | init : FeatherSys.Reachable n FeatherSys.init
  | step (i : Nat) (s : FeatherSys) : i < n → FeatherSys.Reachable n s →
      FeatherSys.Reachable n (FeatherSys.step n i s)

/-- Inductive invariant of the spin lock among the participants below `n`: a
clear flag means nobody is in the critical section, and two participants in the
critical section are the same one. -/
def FeatherSys.Inv (n : Nat) (s : FeatherSys) : Prop :=
  (s.m.m = false → ∀ i, i < n → s.pc i ≠ .cs) ∧
  (∀ i j, i < n → j < n → s.pc i = .cs → s.pc j = .cs → i = j)


/-! ## One participant running alone: `lock` and `unlock` as functions -/

/-- Run the steps of one participant, with nobody else taking steps, until
its program counter satisfies `returned`; at least one step is taken.  The
result is the final shared state and the number of spin iterations made (steps
taken from a configuration where `spins` holds).  `none` when the fuel runs
out first, which stands for a call that has not returned yet. -/
def runAlone {P M : Type} (step : P × M → P × M) (returned : P → Bool)
    (spins : P × M → Bool) : Nat → P × M → Option (M × Nat)
  | 0, _ => none
  | fuel + 1, c =>
    if returned (step c).1 then some ((step c).2, if spins c then 1 else 0)
    else (runAlone step returned spins fuel (step c)).map
      fun r => (r.1, r.2 + if spins c then 1 else 0)

/-- Method `dekker_mutex::lock(i)` with no other participant running (bench.cpp:46-55):
final lock state and number of spin iterations. -/
def dekker_mutex.lock (fuel i : Nat) (m : dekker_mutex) : Option (dekker_mutex × Nat) :=
  runAlone (dekker_mutex.step i) (fun p => decide (p = DekkerPc.cs)) (dekker_mutex.spins i)
    fuel (.l47, m)

/-- Method `dekker_mutex::unlock(i)` (bench.cpp:57-60): its two stores, in order. -/
def dekker_mutex.unlock (i : Nat) (m : dekker_mutex) : dekker_mutex :=
  (dekker_mutex.step i (dekker_mutex.step i (.cs, m))).2

/-- Method `peterson_mutex::lock(i)` with no other participant running
(bench.cpp:71-75). -/
def peterson_mutex.lock (fuel i : Nat) (m : peterson_mutex) : Option (peterson_mutex × Nat) :=
  runAlone (peterson_mutex.step i) (fun p => decide (p = PetersonPc.cs)) (peterson_mutex.spins i)
    fuel (.l72, m)

/-- Method `peterson_mutex::unlock(i)` (bench.cpp:77-79): its single store. -/
def peterson_mutex.unlock (i : Nat) (m : peterson_mutex) : peterson_mutex :=
  (peterson_mutex.step i (.cs, m)).2

/-- Method `feather_mutex::lock` with no other participant running
(bench.cpp:107-111). -/
def feather_mutex.lock (fuel : Nat) (f : feather_mutex) : Option (feather_mutex × Nat) :=
  runAlone feather_mutex.step (fun p => decide (p = FeatherPc.cs)) feather_mutex.spins
    fuel (.l109, f)

/-- Method `feather_mutex::unlock` (bench.cpp:113-116). -/
def feather_mutex.unlock (f : feather_mutex) : feather_mutex :=
  (feather_mutex.step (.cs, f)).2

/-! ## Harness (bench.cpp:14-25, 27-32, 119-140) -/

/-- The abstract class `mutex` with the three lock kinds modelled here.
(`standard_mutex` only forwards to the platform's `std::mutex` and is left
out.) -/
inductive mutex
  | dekker (d : dekker_mutex)
  | peterson (p : peterson_mutex)
  | feather (f : feather_mutex)
  deriving DecidableEq

/-- Virtual `lock(i)`, run without contention; `none` when it does not return
within the fuel. -/
def mutex.lock (fuel i : Nat) : mutex → Option mutex
  | .dekker d => (d.lock fuel i).map fun r => .dekker r.1
  | .peterson p => (p.lock fuel i).map fun r => .peterson r.1
  | .feather f => (f.lock fuel).map fun r => .feather r.1

/-- Virtual `unlock(i)`. -/
def mutex.unlock (i : Nat) : mutex → mutex
  | .dekker d => .dekker (d.unlock i)
  | .peterson p => .peterson (p.unlock i)
  | .feather f => .feather f.unlock

/-- The freshly constructed locks, as `main` builds them. -/
def mutex.fresh : List mutex :=
  [.dekker dekker_mutex.init, .peterson peterson_mutex.init, .feather feather_mutex.init]

/-- Exception `assert_fail` (bench.cpp:14-25): carries one `int`. -/
structure assert_fail where
  c : Int
  deriving DecidableEq

/-- Outcome of a call of `assert_fail::what` (bench.cpp:20-24).  `formatted`
is the text written into the local stringstream `s` on lines 21-22.
`returned` is the text the caller can read through the returned pointer:
line 23 returns `s.str().c_str()`, a pointer into a temporary string that is
destroyed before the function returns, so reading it is undefined and no text
is defined (`none`). -/
structure what_result where
  formatted : String
  returned : Option String
  deriving DecidableEq

/-- Member `assert_fail::what` (bench.cpp:20-24): formats "count = " followed
by the carried value into a local stream and returns a dangling pointer. -/
def assert_fail.what (e : assert_fail) : what_result :=
  { formatted := "count = " ++ toString e.c, returned := none }

/-- Function `assert_count(c)` (bench.cpp:121-126) with the global `count` passed in:
`if (count != c) throw assert_fail(c);`. -/
def assert_count (c : Int) (count : Int) : Except assert_fail Unit :=
  if count ≠ c then .error (assert_fail.mk c) else .ok ()

/-- What the harness touches: the lock under test, the global `count`, and,
as instrumentation, the values of `count` read by the checks that passed,
oldest first. -/
structure Harness where
  m : mutex
  count : Int
  seen : List Int
  deriving DecidableEq

/-- A check point: `assert_count(c)`, recording the value it read. -/
def Harness.check (c : Int) (h : Harness) : Except assert_fail Harness :=
  match assert_count c h.count with
  | .error e => .error e
  | .ok _ => .ok { h with seen := h.seen ++ [h.count] }

/-- One iteration of the body of `loop` (bench.cpp:132-138) for participant
`t` running alone.  `none`: `lock` did not return within the fuel. -/
def loop_body (fuel t : Nat) (h : Harness) : Option (Except assert_fail Harness) :=
  match h.m.lock fuel t with
  | none => none
  | some m1 =>
    some (do
      let h1 ← Harness.check 0 { h with m := m1 }
      let h2 ← Harness.check 1 { h1 with count := h1.count + 1 }
      let h3 ← Harness.check 0 { h2 with count := h2.count - 1 }
      pure { h3 with m := h3.m.unlock t })

/-- Function `loop(t, m)` (bench.cpp:128-140) for `n` iterations (`TEST_NUM` in the
source): stops at the first failed check, which propagates as the exception. -/
def loop (fuel : Nat) : Nat → Nat → Harness → Option (Except assert_fail Harness)
  | 0, _, h => some (.ok h)
  | n + 1, t, h =>
    match loop_body fuel t h with
    | none => none
    | some (.error e) => some (.error e)
    | some (.ok h1) => loop fuel n t h1

/-! ## Schedules -/

/-- Run a finite schedule: the participants named in the list take one step
each, in that order. -/
def DekkerSys.run (sched : List Nat) (s : DekkerSys) : DekkerSys :=
  sched.foldl (fun x i => DekkerSys.step i x) s

/-- Run a finite schedule on the Peterson system, every load being a step. -/
def PetersonSys.run (sched : List Nat) (s : PetersonSys) : PetersonSys :=
  sched.foldl (fun x i => PetersonSys.step i x) s

/-- Run a finite schedule on the spin-lock system of `n` participants. -/
def FeatherSys.run (n : Nat) (sched : List Nat) (s : FeatherSys) : FeatherSys :=
  sched.foldl (fun x i => FeatherSys.step n i x) s

/-- A lock on which `lock(t)` meets no contention: the other participant's
flag is down, or the spin-lock flag is clear. -/
def mutex.uncontended (t : Nat) : mutex → Prop
  | .dekker d => d.want.load (1 - t) = false
  | .peterson p => p.flag.load (1 - t) = false
  | .feather f => f.m = false

/-! ## Bounded runs: each participant makes a fixed number of iterations -/

/-- Execution along an infinite schedule: at time `k` the participant `σ k`
takes the step. -/
def exec {S : Type} (step : Nat → S → S) (σ : Nat → Nat) : Nat → S → S
  | 0, s => s
  | n + 1, s => step (σ n) (exec step σ n s)

/-- The schedule that alternates between participants 0 and 1. -/
def roundRobin (k : Nat) : Nat :=
  k % 2

/-- Two participants running `loop` (bench.cpp:128-140) on a lock: the
interleaved system plus, for each participant, the iterations of the `for`
loop it still has to complete (`TEST_NUM - i` in the source). -/
structure Run (S : Type) where
  sys : S
  rem0 : Nat
  rem1 : Nat

/-- Iterations participant `i` still has to complete. -/
def Run.rem {S : Type} (r : Run S) (i : Nat) : Nat :=
  if i = 0 then r.rem0 else r.rem1

/-- Participant `i` takes its next step in a bounded run: nothing once its
`loop` has returned; otherwise its next access, and when that access is the
last one of `unlock` (`ends`), one iteration is completed. -/
def Run.step {S : Type} (step : Nat → S → S) (ends : Nat → S → Bool) (i : Nat) (r : Run S) :
    Run S :=
  if i = 0 then
    if r.rem0 = 0 then r
    else { sys := step 0 r.sys, rem0 := if ends 0 r.sys then r.rem0 - 1 else r.rem0,
           rem1 := r.rem1 }
  else if i = 1 then
    if r.rem1 = 0 then r
    else { sys := step 1 r.sys, rem0 := r.rem0,
           rem1 := if ends 1 r.sys then r.rem1 - 1 else r.rem1 }
  else r

/-- Both participants have completed all their iterations. -/
def Run.finished {S : Type} (r : Run S) : Prop :=
  r.rem0 = 0 ∧ r.rem1 = 0

/-- The schedule keeps scheduling every participant that still has iterations
to make, in the execution of `step` from `r`. -/
def Run.Fair {S : Type} (step : Nat → Run S → Run S) (σ : Nat → Nat) (r : Run S) : Prop :=
  ∀ n i, i < 2 → (exec step σ n r).rem i ≠ 0 → ∃ k, n ≤ k ∧ σ k = i

/-- Progress measure of a bounded run: iterations left, then the progress
`minor` within the current iteration, which may look at the lock, the program
counters and at which participants have finished. -/
def Run.rank {S : Type} (minor : S → Bool → Bool → Nat) (r : Run S) : Nat :=
  (r.rem0 + r.rem1) * 32 + minor r.sys (decide (r.rem0 = 0)) (decide (r.rem1 = 0))

/-! ### Dekker -/

/-- The next access of participant `i` is the last one of `unlock` (line 59). -/
def DekkerSys.ends (i : Nat) (s : DekkerSys) : Bool :=
  decide (s.pc i = .l59)

/-- Step of the bounded Dekker run. -/
def DekkerSys.runStep (i : Nat) (r : Run DekkerSys) : Run DekkerSys :=
  Run.step DekkerSys.step DekkerSys.ends i r

/-- Both participants start `loop` with `n` iterations to make. -/
def DekkerSys.runInit (n : Nat) : Run DekkerSys :=
  { sys := DekkerSys.init, rem0 := n, rem1 := n }

/-- States reachable when both participants make `n` iterations. -/
inductive DekkerSys.RunReachable (n : Nat) : Run DekkerSys → Prop
  | init : DekkerSys.RunReachable n (DekkerSys.runInit n)
  | step (i : Nat) (r : Run DekkerSys) : i < 2 → DekkerSys.RunReachable n r →
      DekkerSys.RunReachable n (DekkerSys.runStep i r)

/-- The program counter is in the critical section or inside `unlock`. -/
def DekkerPc.releasing : DekkerPc → Bool
  | .cs => true
  | .l59 => true
  | _ => false

/-- The program counter is in the body of the outer loop of `lock`. -/
def DekkerPc.inBody : DekkerPc → Bool
  | .l49 => true
  | .l50 => true
  | .l51 => true
  | .l52 => true
  | _ => false

/-- Participant `i` is inside `lock()`: it has iterations left and `lock` has
not returned. -/
def DekkerSys.inLock (r : Run DekkerSys) (i : Nat) : Prop :=
  r.rem i ≠ 0 ∧ (r.sys.pc i).releasing = false

/-- Invariant of bounded runs; `d0`, `d1` say which participants have
finished. -/
def DekkerSys.RunInv (s : DekkerSys) (d0 d1 : Bool) : Prop :=
  s.m.want.e0 = s.pc0.wants ∧ s.m.want.e1 = s.pc1.wants ∧
  ¬ (s.pc0.releasing = true ∧ s.pc1.releasing = true) ∧
  s.m.turn < 2 ∧
  (d0 = true → s.pc0 = .l47) ∧ (d1 = true → s.pc1 = .l47) ∧
  (s.pc0 = .l59 → s.m.turn = 1) ∧ (s.pc1 = .l59 → s.m.turn = 0) ∧
  (s.pc0 = .l52 → s.m.turn = 0) ∧ (s.pc1 = .l52 → s.m.turn = 1) ∧
  (d1 = true → s.pc0.inBody = true → s.m.turn = 0) ∧
  (d0 = true → s.pc1.inBody = true → s.m.turn = 1)

instance DekkerSys.decRunInv (s : DekkerSys) (d0 d1 : Bool) : Decidable (s.RunInv d0 d1) := by
  unfold DekkerSys.RunInv
  infer_instance

/-- Accesses a participant still makes up to the end of `unlock` when the
other flag stays down and the turn is its own. -/
def DekkerPc.alone : DekkerPc → Nat
  | .l50 => 7
  | .l51 => 6
  | .l52 => 5
  | .l49 => 5
  | .l47 => 5
  | .l48 => 4
  | .cs => 2
  | .l59 => 1

/-- Accesses the participant without the turn makes before it waits on line
51 with its flag down. -/
def DekkerPc.backoff : DekkerPc → Nat
  | .l47 => 4
  | .l48 => 3
  | .l49 => 2
  | .l50 => 1
  | _ => 0

/-- Accesses the participant holding the turn makes before it is at the loop
test of line 48 with its flag up. -/
def DekkerPc.setup : DekkerPc → Nat
  | .l50 => 3
  | .l51 => 2
  | .l52 => 1
  | .l47 => 1
  | _ => 0

/-- The participant whose next step is sure to make progress: the one in the
critical section or in `unlock`; else the only one still running; else, with
`t` holding the turn, `t` once the other one waits on line 51, and the other
one until then. -/
def DekkerSys.helpful (s : DekkerSys) (d0 d1 : Bool) : Nat :=
  if s.pc0.releasing then 0
  else if s.pc1.releasing then 1
  else if d1 then 0
  else if d0 then 1
  else if s.pc (1 - s.m.turn) = .l51 then s.m.turn
  else 1 - s.m.turn

/-- Progress within one iteration, lower is further. -/
def DekkerSys.minor (s : DekkerSys) (d0 d1 : Bool) : Nat :=
  if d0 && d1 then 0
  else if s.pc0.releasing then s.pc0.alone
  else if s.pc1.releasing then s.pc1.alone
  else if d1 then s.pc0.alone
  else if d0 then s.pc1.alone
  else if s.pc (1 - s.m.turn) = .l51 then (s.pc s.m.turn).alone
  else 8 + 4 * (s.pc (1 - s.m.turn)).backoff + (s.pc s.m.turn).setup


/-! ### Peterson -/

/-- The next access of participant `i` is the last (and only) one of `unlock`
(line 78). -/
def PetersonSys.ends (i : Nat) (s : PetersonSys) : Bool :=
  decide (s.pc i = .cs)

/-- Step of the bounded Peterson run. -/
def PetersonSys.runStep (i : Nat) (r : Run PetersonSys) : Run PetersonSys :=
  Run.step PetersonSys.step PetersonSys.ends i r

/-- Both participants start `loop` with `n` iterations to make. -/
def PetersonSys.runInit (n : Nat) : Run PetersonSys :=
  { sys := PetersonSys.init, rem0 := n, rem1 := n }

/-- States reachable when both participants make `n` iterations. -/
inductive PetersonSys.RunReachable (n : Nat) : Run PetersonSys → Prop
  | init : PetersonSys.RunReachable n (PetersonSys.runInit n)
  | step (i : Nat) (r : Run PetersonSys) : i < 2 → PetersonSys.RunReachable n r →
      PetersonSys.RunReachable n (PetersonSys.runStep i r)

/-- Participant `i` is inside `lock()`: it has iterations left and `lock` has
not returned. -/
def PetersonSys.inLock (r : Run PetersonSys) (i : Nat) : Prop :=
  r.rem i ≠ 0 ∧ r.sys.pc i ≠ .cs

/-- Invariant of bounded runs; `d0`, `d1` say which participants have
finished. -/
def PetersonSys.RunInv (s : PetersonSys) (d0 d1 : Bool) : Prop :=
  s.m.flag.e0 = s.pc0.flagged ∧ s.m.flag.e1 = s.pc1.flagged ∧
  (s.pc0 = .cs → s.pc1.contending = true → s.m.turn = 0) ∧
  (s.pc1 = .cs → s.pc0.contending = true → s.m.turn = 1) ∧
  s.m.turn < 2 ∧
  (d0 = true → s.pc0 = .l72) ∧ (d1 = true → s.pc1 = .l72)

instance PetersonSys.decRunInv (s : PetersonSys) (d0 d1 : Bool) :
    Decidable (s.RunInv d0 d1) := by
  unfold PetersonSys.RunInv
  infer_instance

/-- Accesses a participant still makes up to the end of `unlock` when the
other flag stays down. -/
def PetersonPc.alone : PetersonPc → Nat
  | .l72 => 5
  | .l73 => 4
  | .l74t => 4
  | .l74 => 3
  | .cs => 1

/-- Stores a participant still makes before it reaches the spin condition. -/
def PetersonPc.pre : PetersonPc → Nat
  | .l72 => 2
  | .l73 => 1
  | _ => 0

/-- Accesses the participant holding the turn still makes up to the end of
`unlock` when both are at the spin condition. -/
def PetersonPc.duel : PetersonPc → Nat
  | .l74 => 3
  | .l74t => 2
  | _ => 0

/-- The participant whose next step is sure to make progress: the one in the
critical section; else the only one still running; else one that has not
reached the spin condition; else the one `turn` names. -/
def PetersonSys.helpful (s : PetersonSys) (d0 d1 : Bool) : Nat :=
  if s.pc0 = .cs then 0
  else if s.pc1 = .cs then 1
  else if d1 then 0
  else if d0 then 1
  else if 0 < s.pc0.pre then 0
  else if 0 < s.pc1.pre then 1
  else s.m.turn

/-- Progress within one iteration, lower is further. -/
def PetersonSys.minor (s : PetersonSys) (d0 d1 : Bool) : Nat :=
  if d0 && d1 then 0
  else if s.pc0 = .cs then 1
  else if s.pc1 = .cs then 1
  else if d1 then s.pc0.alone
  else if d0 then s.pc1.alone
  else if 0 < s.pc0.pre + s.pc1.pre then 8 + s.pc0.pre + s.pc1.pre
  else (s.pc s.m.turn).duel


/-! ## Theorems -/

theorem dekker_inv_init : DekkerSys.Inv DekkerSys.init := by
  simp [DekkerSys.Inv, DekkerSys.init, dekker_mutex.init, AtomicBool2.store, DekkerPc.wants]

theorem dekker_inv_step (i : Nat) (s : DekkerSys) (h : s.Inv) : (s.step i).Inv := by
  obtain ⟨⟨⟨w0, w1⟩, t⟩, p0, p1⟩ := s
  simp only [DekkerSys.Inv] at h
  obtain ⟨h0, h1, h2⟩ := h
  subst h0 h1
  unfold DekkerSys.step
  by_cases hi0 : i = 0
  · subst hi0
    cases p0 <;> cases p1 <;>
      simp_all [DekkerSys.Inv, dekker_mutex.step, AtomicBool2.store, AtomicBool2.load,
        DekkerPc.wants] <;> split <;> simp_all
  · by_cases hi1 : i = 1
    · subst hi1
      cases p0 <;> cases p1 <;>
        simp_all [DekkerSys.Inv, dekker_mutex.step, AtomicBool2.store, AtomicBool2.load,
          DekkerPc.wants] <;> split <;> simp_all
    · simp [hi0, hi1, DekkerSys.Inv, h2]

theorem dekker_inv_of_reachable (s : DekkerSys) (h : s.Reachable) : s.Inv := by
  induction h with
  | init => exact dekker_inv_init
  | step i s _ _ ih => exact dekker_inv_step i s ih


/-! ### Peterson: invariant -/

theorem peterson_inv_init : PetersonSys.Inv PetersonSys.init := by
  simp [PetersonSys.Inv, PetersonSys.init, peterson_mutex.init, PetersonPc.flagged,
    PetersonPc.contending]

theorem peterson_inv_step (i : Nat) (s : PetersonSys) (h : s.Inv) : (s.step i).Inv := by
  obtain ⟨⟨⟨w0, w1⟩, t⟩, p0, p1⟩ := s
  simp only [PetersonSys.Inv] at h
  obtain ⟨h0, h1, h2, h3⟩ := h
  subst h0 h1
  unfold PetersonSys.step PetersonSys.stepWith
  by_cases hi0 : i = 0
  · subst hi0
    cases p0 <;> cases p1 <;>
      simp_all [PetersonSys.Inv, peterson_mutex.step, AtomicBool2.store, AtomicBool2.load,
        PetersonPc.flagged, PetersonPc.contending] <;> split <;> simp_all
  · by_cases hi1 : i = 1
    · subst hi1
      cases p0 <;> cases p1 <;>
        simp_all [PetersonSys.Inv, peterson_mutex.step, AtomicBool2.store, AtomicBool2.load,
          PetersonPc.flagged, PetersonPc.contending] <;> split <;> simp_all
    · simp only [hi0, hi1, if_false, PetersonSys.Inv, true_and]
      exact ⟨h2, h3⟩

theorem peterson_inv_of_reachable (s : PetersonSys) (h : s.Reachable) : s.Inv := by
  induction h with
  | init => exact peterson_inv_init
  | step i s _ _ ih => exact peterson_inv_step i s ih

/-- Evaluating the whole spin condition at once is one or two single-load
steps of the same participant. -/
theorem peterson_stepCond_eq (i : Nat) (s : PetersonSys) :
    s.stepCond i = s.step i ∨ s.stepCond i = (s.step i).step i := by
  obtain ⟨⟨⟨w0, w1⟩, t⟩, p0, p1⟩ := s
  unfold PetersonSys.stepCond PetersonSys.step PetersonSys.stepWith
  by_cases hi0 : i = 0
  · subst hi0
    cases p0 <;> simp [peterson_mutex.stepCond, peterson_mutex.step]
    cases w1 <;> by_cases ht : t = 0 <;> simp [AtomicBool2.load, ht]
  · by_cases hi1 : i = 1
    · subst hi1
      cases p1 <;> simp [peterson_mutex.stepCond, peterson_mutex.step]
      cases w0 <;> by_cases ht : t = 1 <;> simp [AtomicBool2.load, ht]
    · simp [hi0, hi1]

theorem peterson_reachable_of_reachableCond (s : PetersonSys) (h : s.ReachableCond) :
    s.Reachable := by
  induction h with
  | init => exact PetersonSys.Reachable.init
  | step i s hi _ ih =>
    rcases peterson_stepCond_eq i s with h1 | h1 <;> rw [h1]
    · exact PetersonSys.Reachable.step i s hi ih
    · exact PetersonSys.Reachable.step i _ hi (PetersonSys.Reachable.step i s hi ih)

/-! ### Spin lock: invariant -/

theorem feather_inv_init (n : Nat) : FeatherSys.Inv n FeatherSys.init := by
  simp [FeatherSys.Inv, FeatherSys.init]

theorem feather_inv_step (n i : Nat) (s : FeatherSys) (h : s.Inv n) :
    (s.step n i).Inv n := by
  obtain ⟨⟨b⟩, pc⟩ := s
  obtain ⟨h1, h2⟩ := h
  simp only at h1 h2
  unfold FeatherSys.step
  by_cases hi : i < n
  swap
  · simp only [hi, if_false]; exact ⟨h1, h2⟩
  simp only [hi, if_true]
  rcases hp : pc i with _ | _ | _
  · -- test_and_set
    cases b
    · -- acquired
      have hno := h1 rfl
      refine ⟨by simp [feather_mutex.step, feather_mutex.test_and_set], ?_⟩
      intro a c ha hc hac hcc
      simp only [feather_mutex.step, feather_mutex.test_and_set, Bool.false_eq_true, if_false,
        Function.update_apply] at hac hcc
      by_cases hai : a = i <;> by_cases hci : c = i
      · rw [hai, hci]
      · simp only [hci, if_false] at hcc; exact absurd hcc (hno c hc)
      · simp only [hai, if_false] at hac; exact absurd hac (hno a ha)
      · simp only [hai, if_false] at hac; exact absurd hac (hno a ha)
    · refine ⟨by simp [feather_mutex.step, feather_mutex.test_and_set], ?_⟩
      intro a c ha hc hac hcc
      simp only [feather_mutex.step, feather_mutex.test_and_set, if_true,
        Function.update_apply] at hac hcc
      by_cases hai : a = i
      · simp [hai] at hac
      by_cases hci : c = i
      · simp [hci] at hcc
      simp only [hai, if_false] at hac
      simp only [hci, if_false] at hcc
      exact h2 a c ha hc hac hcc
  · -- yield
    constructor
    · intro hb a ha
      simp only [feather_mutex.step, Function.update_apply]
      by_cases hai : a = i
      · simp [hai]
      · simp only [hai, if_false]; exact h1 hb a ha
    · intro a c ha hc hac hcc
      simp only [feather_mutex.step, Function.update_apply] at hac hcc
      by_cases hai : a = i
      · simp [hai] at hac
      by_cases hci : c = i
      · simp [hci] at hcc
      simp only [hai, if_false] at hac
      simp only [hci, if_false] at hcc
      exact h2 a c ha hc hac hcc
  · -- clear
    constructor
    · intro _ a ha
      simp only [feather_mutex.step, Function.update_apply]
      by_cases hai : a = i
      · simp [hai]
      · simp only [hai, if_false]
        intro hcs
        exact hai (h2 a i ha hi hcs hp)
    · intro a c ha hc hac hcc
      simp only [feather_mutex.step, Function.update_apply] at hac hcc
      by_cases hai : a = i
      · simp [hai] at hac
      by_cases hci : c = i
      · simp [hci] at hcc
      simp only [hai, if_false] at hac
      simp only [hci, if_false] at hcc
      exact h2 a c ha hc hac hcc

theorem feather_inv_of_reachable (n : Nat) (s : FeatherSys) (h : s.Reachable n) :
    s.Inv n := by
  induction h with
  | init => exact feather_inv_init n
  | step i s _ _ ih => exact feather_inv_step n i s ih


/-! ### Reachability along schedules -/

theorem dekker_reachable_run (sched : List Nat) (s : DekkerSys)
    (hs : ∀ i ∈ sched, i < 2) (h : s.Reachable) : (DekkerSys.run sched s).Reachable := by
  induction sched generalizing s with
  | nil => exact h
  | cons i l ih =>
    have hi : i < 2 := hs i (List.mem_cons_self i l)
    exact ih (DekkerSys.step i s) (fun j hj => hs j (List.mem_cons_of_mem i hj))
      (DekkerSys.Reachable.step i s hi h)

theorem peterson_reachable_run (sched : List Nat) (s : PetersonSys)
    (hs : ∀ i ∈ sched, i < 2) (h : s.Reachable) : (PetersonSys.run sched s).Reachable := by
  induction sched generalizing s with
  | nil => exact h
  | cons i l ih =>
    have hi : i < 2 := hs i (List.mem_cons_self i l)
    exact ih (PetersonSys.step i s) (fun j hj => hs j (List.mem_cons_of_mem i hj))
      (PetersonSys.Reachable.step i s hi h)

theorem feather_reachable_run (n : Nat) (sched : List Nat) (s : FeatherSys)
    (hs : ∀ i ∈ sched, i < n) (h : s.Reachable n) : (FeatherSys.run n sched s).Reachable n := by
  induction sched generalizing s with
  | nil => exact h
  | cons i l ih =>
    have hi : i < n := hs i (List.mem_cons_self i l)
    exact ih (FeatherSys.step n i s) (fun j hj => hs j (List.mem_cons_of_mem i hj))
      (FeatherSys.Reachable.step i s hi h)

/-! ### Mutual exclusion -/

/-- C1: in the interleaved system of the two participants on the Dekker lock,
started on the fresh lock with both about to call `lock`, every load and store
being one atomic step, no reachable state has both participants in the
critical section. -/
theorem dekker_mutual_exclusion (s : DekkerSys) (h : s.Reachable) : ¬ s.bothInCS := by
  obtain ⟨_, _, h3⟩ := dekker_inv_of_reachable s h
  intro hb
  exact h3 ⟨Or.inl hb.1, Or.inl hb.2⟩

/-- Witness for C1: after the schedule 0,0,1,1 participant 0 is in the critical
section, participant 1 is spinning, and the state is not a double entry. -/
theorem dekker_mutual_exclusion_witness :
    (DekkerSys.run [0, 0, 1, 1] DekkerSys.init).Reachable ∧
    (DekkerSys.run [0, 0, 1, 1] DekkerSys.init).pc0 = DekkerPc.cs ∧
    (DekkerSys.run [0, 0, 1, 1] DekkerSys.init).pc1 = DekkerPc.l49 ∧
    ¬ (DekkerSys.run [0, 0, 1, 1] DekkerSys.init).bothInCS :=
  ⟨dekker_reachable_run _ _ (by decide) DekkerSys.Reachable.init, by decide, by decide,
    dekker_mutual_exclusion _
      (dekker_reachable_run _ _ (by decide) DekkerSys.Reachable.init)⟩

/-- C2: in the interleaved system of the two participants on the Peterson
lock, started on the fresh lock, no reachable state has both participants in
the critical section; this holds when each load of the spin condition is an
atomic step and also when each evaluation of the whole condition is one. -/
theorem peterson_mutual_exclusion (s : PetersonSys) (h : s.Reachable ∨ s.ReachableCond) :
    ¬ s.bothInCS := by
  have hr : s.Reachable := h.elim id (peterson_reachable_of_reachableCond s)
  obtain ⟨_, _, h2, h3⟩ := peterson_inv_of_reachable s hr
  intro hb
  have e0 := h2 hb.1 (by rw [hb.2]; rfl)
  have e1 := h3 hb.2 (by rw [hb.1]; rfl)
  omega

/-- Witness for C2: after the schedule 0,0,1,1,0,0 participant 0 is in the
critical section and participant 1 is at the spin condition. -/
theorem peterson_mutual_exclusion_witness :
    (PetersonSys.run [0, 0, 1, 1, 0, 0] PetersonSys.init).pc0 = PetersonPc.cs ∧
    (PetersonSys.run [0, 0, 1, 1, 0, 0] PetersonSys.init).pc1 = PetersonPc.l74 ∧
    ¬ (PetersonSys.run [0, 0, 1, 1, 0, 0] PetersonSys.init).bothInCS :=
  ⟨by decide, by decide,
    peterson_mutual_exclusion _
      (Or.inl (peterson_reachable_run _ _ (by decide) PetersonSys.Reachable.init))⟩

/-- C3: for every number `n` of participants and every reachable state of the
interleaved spin-lock system, at most one participant is in the critical
section, and the flag is set whenever some participant is in it. -/
theorem feather_mutual_exclusion (n : Nat) (s : FeatherSys) (h : s.Reachable n) :
    (∀ i j, i < n → j < n → s.pc i = .cs → s.pc j = .cs → i = j) ∧
    ((∃ i, i < n ∧ s.pc i = .cs) → s.m.m = true) := by
  obtain ⟨h1, h2⟩ := feather_inv_of_reachable n s h
  refine ⟨h2, ?_⟩
  rintro ⟨i, hi, hcs⟩
  cases hb : s.m.m
  · exact absurd hcs (h1 hb i hi)
  · rfl

/-- Witness for C3: three participants; after the schedule 1,0,2,0 participant
1 holds the lock, the flag is set, and nobody else is inside. -/
theorem feather_mutual_exclusion_witness :
    (FeatherSys.run 3 [1, 0, 2, 0] FeatherSys.init).pc 1 = FeatherPc.cs ∧
    (FeatherSys.run 3 [1, 0, 2, 0] FeatherSys.init).pc 0 = FeatherPc.l109 ∧
    (FeatherSys.run 3 [1, 0, 2, 0] FeatherSys.init).pc 2 = FeatherPc.l110 ∧
    ((∀ i j, i < 3 → j < 3 → (FeatherSys.run 3 [1, 0, 2, 0] FeatherSys.init).pc i = .cs →
        (FeatherSys.run 3 [1, 0, 2, 0] FeatherSys.init).pc j = .cs → i = j) ∧
      ((∃ i, i < 3 ∧ (FeatherSys.run 3 [1, 0, 2, 0] FeatherSys.init).pc i = .cs) →
        (FeatherSys.run 3 [1, 0, 2, 0] FeatherSys.init).m.m = true)) :=
  ⟨by decide, by decide, by decide,
    feather_mutual_exclusion 3 _
      (feather_reachable_run 3 _ _ (by decide) FeatherSys.Reachable.init)⟩


/-! ### Single operations -/

theorem load_store_same (a : AtomicBool2) (i : Nat) (v : Bool) :
    (a.store i v).load i = v := by
  unfold AtomicBool2.store AtomicBool2.load
  by_cases h : i = 0 <;> simp [h]

theorem load_store_other (a : AtomicBool2) (i : Nat) (hi : i < 2) (v : Bool) :
    (a.store i v).load (1 - i) = a.load (1 - i) := by
  unfold AtomicBool2.store AtomicBool2.load
  have h : i = 0 ∨ i = 1 := by omega
  rcases h with h | h <;> simp [h]

/-- C5 (as the code behaves): when the counter holds 1 and 0 is expected,
`assert_count` raises an `assert_fail` that carries the expected value 0, and
the text `what` formats is "count = 0"; the observed value 1 is not reported
(and the pointer `what` returns gives the caller no defined text at all). -/
theorem assert_count_reports_expected :
    assert_count 0 1 = .error (assert_fail.mk 0) ∧
    (assert_fail.mk 0).what.formatted = "count = 0" ∧
    (assert_fail.mk 0).c ≠ 1 ∧
    (assert_fail.mk 0).what.returned = none := by
  refine ⟨by simp [assert_count], by decide, by decide, rfl⟩

/-- C7: for `i` in `{0, 1}` and every lock state, `dekker_mutex::unlock(i)`
first writes `turn = 1 - i`, leaving both flags as they were, and only then
clears `want[i]`; the final state has `turn = 1 - i`, `want[i] = false` and
`want[1 - i]` unchanged. -/
theorem dekker_unlock_effect (i : Nat) (hi : i < 2) (m : dekker_mutex) :
    dekker_mutex.step i (.cs, m) = (.l59, { m with turn := 1 - i }) ∧
    dekker_mutex.step i (.l59, { m with turn := 1 - i }) =
      (.l47, { want := m.want.store i false, turn := 1 - i }) ∧
    dekker_mutex.unlock i m = { want := m.want.store i false, turn := 1 - i } ∧
    (dekker_mutex.unlock i m).turn = 1 - i ∧
    (dekker_mutex.unlock i m).want.load i = false ∧
    (dekker_mutex.unlock i m).want.load (1 - i) = m.want.load (1 - i) := by
  refine ⟨rfl, rfl, rfl, rfl, ?_, ?_⟩
  · exact load_store_same m.want i false
  · exact load_store_other m.want i hi false

/-- Witness for C7: participant 1 releasing a lock on which both flags are up
and the turn is its own. -/
theorem dekker_unlock_effect_witness :
    dekker_mutex.unlock 1 ⟨⟨true, true⟩, 1⟩ = ⟨⟨true, false⟩, 0⟩ ∧
    (dekker_mutex.step 1 (.cs, ⟨⟨true, true⟩, 1⟩) = (.l59, ⟨⟨true, true⟩, 0⟩) ∧
      dekker_mutex.step 1 (.l59, ⟨⟨true, true⟩, 0⟩) = (.l47, ⟨⟨true, false⟩, 0⟩) ∧
      dekker_mutex.unlock 1 ⟨⟨true, true⟩, 1⟩ = ⟨⟨true, false⟩, 0⟩ ∧
      (dekker_mutex.unlock 1 ⟨⟨true, true⟩, 1⟩).turn = 0 ∧
      (dekker_mutex.unlock 1 ⟨⟨true, true⟩, 1⟩).want.load 1 = false ∧
      (dekker_mutex.unlock 1 ⟨⟨true, true⟩, 1⟩).want.load 0 = true) :=
  ⟨by decide, dekker_unlock_effect 1 (by decide) ⟨⟨true, true⟩, 1⟩⟩

/-- C6 (refuted as stated): on the fresh lock, the second access of
`peterson_mutex::lock(0)` writes 1 into `turn`, the identity of the other
participant, not participant 0's own. -/
theorem peterson_lock_turn_counterexample :
    (peterson_mutex.step 0 (peterson_mutex.step 0 (.l72, peterson_mutex.init))).1 = .l74 ∧
    (peterson_mutex.step 0 (peterson_mutex.step 0 (.l72, peterson_mutex.init))).2.turn = 1 ∧
    (peterson_mutex.step 0 (peterson_mutex.step 0 (.l72, peterson_mutex.init))).2.turn ≠ 0 := by
  refine ⟨by decide, by decide, by decide⟩

/-- C6 (amended): for `i` in `{0, 1}`, `peterson_mutex::lock(i)` first raises
`flag[i]` (leaving `turn` alone), then writes `1 - i`, the other participant's
identity, into `turn`, then evaluates the spin condition: while `flag[1 - i]`
is raised and `turn ≠ i` the evaluation comes back to the loop test with the
lock unchanged; the first evaluation where `flag[1 - i]` is down, or
`turn = i`, returns with the lock unchanged.  With `turn` in `{0, 1}`,
`turn ≠ i` says that `turn` names the other participant. -/
theorem peterson_lock_protocol (i : Nat) (hi : i < 2) (m : peterson_mutex) :
    peterson_mutex.step i (.l72, m) = (.l73, { m with flag := m.flag.store i true }) ∧
    peterson_mutex.step i (.l73, m) = (.l74, { m with turn := 1 - i }) ∧
    (m.flag.load (1 - i) = true → m.turn ≠ i →
      peterson_mutex.step i (peterson_mutex.step i (.l74, m)) = (.l74, m)) ∧
    (m.flag.load (1 - i) = false → peterson_mutex.step i (.l74, m) = (.cs, m)) ∧
    (m.flag.load (1 - i) = true → m.turn = i →
      peterson_mutex.step i (peterson_mutex.step i (.l74, m)) = (.cs, m)) ∧
    (m.turn < 2 → (m.turn ≠ i ↔ m.turn = 1 - i)) := by
  refine ⟨rfl, rfl, ?_, ?_, ?_, ?_⟩
  · intro hf ht
    simp [peterson_mutex.step, hf, ht]
  · intro hf
    simp [peterson_mutex.step, hf]
  · intro hf ht
    simp [peterson_mutex.step, hf, ht]
  · intro ht
    omega

/-- Witness for C6 (amended): participant 1 on a lock where participant 0 has
its flag up and `turn` is 0. -/
theorem peterson_lock_protocol_witness :
    peterson_mutex.step 1 (.l72, ⟨⟨true, false⟩, 0⟩) = (.l73, ⟨⟨true, true⟩, 0⟩) ∧
    peterson_mutex.step 1 (.l73, ⟨⟨true, true⟩, 1⟩) = (.l74, ⟨⟨true, true⟩, 0⟩) ∧
    peterson_mutex.step 1 (peterson_mutex.step 1 (.l74, ⟨⟨true, true⟩, 0⟩)) =
      (.l74, ⟨⟨true, true⟩, 0⟩) :=
  ⟨(peterson_lock_protocol 1 (by decide) ⟨⟨true, false⟩, 0⟩).1,
    (peterson_lock_protocol 1 (by decide) ⟨⟨true, true⟩, 1⟩).2.1,
    (peterson_lock_protocol 1 (by decide) ⟨⟨true, true⟩, 0⟩).2.2.1 (by decide) (by decide)⟩

/-! ### Acquiring without contention -/

theorem dekker_lock_uncontended (i : Nat) (hi : i < 2) (m : dekker_mutex)
    (hm : m.want.load (1 - i) = false) (fuel : Nat) (hf : 2 ≤ fuel) :
    dekker_mutex.lock fuel i m = some ({ m with want := m.want.store i true }, 0) := by
  obtain ⟨f, rfl⟩ : ∃ f, fuel = f + 2 := ⟨fuel - 2, by omega⟩
  have h1 : (m.want.store i true).load (1 - i) = false := by
    rw [load_store_other m.want i hi true]; exact hm
  simp [dekker_mutex.lock, runAlone, dekker_mutex.step, dekker_mutex.spins, h1]

theorem peterson_lock_uncontended (i : Nat) (hi : i < 2) (m : peterson_mutex)
    (hm : m.flag.load (1 - i) = false) (fuel : Nat) (hf : 3 ≤ fuel) :
    peterson_mutex.lock fuel i m =
      some ({ flag := m.flag.store i true, turn := 1 - i }, 0) := by
  obtain ⟨f, rfl⟩ : ∃ f, fuel = f + 3 := ⟨fuel - 3, by omega⟩
  have h1 : (m.flag.store i true).load (1 - i) = false := by
    rw [load_store_other m.flag i hi true]; exact hm
  simp [peterson_mutex.lock, runAlone, peterson_mutex.step, peterson_mutex.spins, h1]

theorem feather_lock_uncontended (f : feather_mutex) (hm : f.m = false) (fuel : Nat)
    (hf : 1 ≤ fuel) : feather_mutex.lock fuel f = some ({ m := true }, 0) := by
  obtain ⟨k, rfl⟩ : ∃ k, fuel = k + 1 := ⟨fuel - 1, by omega⟩
  simp [feather_mutex.lock, runAlone, feather_mutex.step, feather_mutex.spins,
    feather_mutex.test_and_set, hm]

/-- C8: for `i` in `{0, 1}`, `dekker_mutex::lock(i)` and
`peterson_mutex::lock(i)` started in any state where the other participant's
flag is down (whatever `turn` is), and `feather_mutex::lock` started with the
flag clear, return when run alone, given fuel for their two, three and one
accesses, after zero spin iterations and with the participant's own flag
raised. -/
theorem uncontended_lock_returns (i : Nat) (hi : i < 2) :
    (∀ m : dekker_mutex, m.want.load (1 - i) = false → ∀ fuel, 2 ≤ fuel →
      dekker_mutex.lock fuel i m = some ({ m with want := m.want.store i true }, 0) ∧
      (m.want.store i true).load i = true) ∧
    (∀ m : peterson_mutex, m.flag.load (1 - i) = false → ∀ fuel, 3 ≤ fuel →
      peterson_mutex.lock fuel i m = some ({ flag := m.flag.store i true, turn := 1 - i }, 0) ∧
      (m.flag.store i true).load i = true) ∧
    (∀ f : feather_mutex, f.m = false → ∀ fuel, 1 ≤ fuel →
      feather_mutex.lock fuel f = some ({ m := true }, 0)) := by
  refine ⟨?_, ?_, ?_⟩
  · intro m hm fuel hf
    exact ⟨dekker_lock_uncontended i hi m hm fuel hf,
      load_store_same m.want i true⟩
  · intro m hm fuel hf
    exact ⟨peterson_lock_uncontended i hi m hm fuel hf,
      load_store_same m.flag i true⟩
  · intro f hm fuel hf
    exact feather_lock_uncontended f hm fuel hf

/-- Witness for C8: participant 0 on a Dekker lock whose turn was left at 1 by
its own previous `unlock`, on a Peterson lock, and on a clear spin lock. -/
theorem uncontended_lock_returns_witness :
    dekker_mutex.lock 2 0 ⟨⟨false, false⟩, 1⟩ = some (⟨⟨true, false⟩, 1⟩, 0) ∧
    peterson_mutex.lock 3 0 ⟨⟨false, false⟩, 0⟩ = some (⟨⟨true, false⟩, 1⟩, 0) ∧
    feather_mutex.lock 1 ⟨false⟩ = some (⟨true⟩, 0) :=
  ⟨((uncontended_lock_returns 0 (by decide)).1 ⟨⟨false, false⟩, 1⟩ (by decide) 2
      (by decide)).1,
    ((uncontended_lock_returns 0 (by decide)).2.1 ⟨⟨false, false⟩, 0⟩ (by decide) 3
      (by decide)).1,
    (uncontended_lock_returns 0 (by decide)).2.2 ⟨false⟩ (by decide) 1 (by decide)⟩

/-! ### The harness without contention -/

theorem mutex_lock_uncontended (t : Nat) (ht : t < 2) (fuel : Nat) (hf : 3 ≤ fuel) (m : mutex)
    (hm : m.uncontended t) :
    ∃ m1, m.lock fuel t = some m1 ∧ (m1.unlock t).uncontended t := by
  cases m with
  | dekker d =>
    refine ⟨.dekker { d with want := d.want.store t true }, ?_, ?_⟩
    · simp [mutex.lock, dekker_lock_uncontended t ht d hm fuel (by omega)]
    · show ((dekker_mutex.unlock t { d with want := d.want.store t true }).want.load (1 - t)
        = false)
      show ((d.want.store t true).store t false).load (1 - t) = false
      rw [load_store_other _ _ ht, load_store_other _ _ ht]
      exact hm
  | peterson p =>
    refine ⟨.peterson { flag := p.flag.store t true, turn := 1 - t }, ?_, ?_⟩
    · simp [mutex.lock, peterson_lock_uncontended t ht p hm fuel hf]
    · show ((p.flag.store t true).store t false).load (1 - t) = false
      rw [load_store_other _ _ ht, load_store_other _ _ ht]
      exact hm
  | feather f =>
    refine ⟨.feather { m := true }, ?_, ?_⟩
    · simp [mutex.lock, feather_lock_uncontended f hm fuel (by omega)]
    · rfl

theorem loop_body_uncontended (t : Nat) (ht : t < 2) (fuel : Nat) (hf : 3 ≤ fuel) (h : Harness)
    (hm : h.m.uncontended t) (hc : h.count = 0) :
    ∃ m1, loop_body fuel t h = some (.ok ⟨m1, 0, h.seen ++ [0, 1, 0]⟩) ∧
      m1.uncontended t := by
  obtain ⟨m1, hl, hu⟩ := mutex_lock_uncontended t ht fuel hf h.m hm
  refine ⟨m1.unlock t, ?_, hu⟩
  obtain ⟨m, count, seen⟩ := h
  simp only at hc hl
  subst hc
  simp [loop_body, hl, Harness.check, assert_count, bind, Except.bind, pure, Except.pure]

theorem loop_uncontended_from (t : Nat) (ht : t < 2) (fuel : Nat) (hf : 3 ≤ fuel) (k : Nat) :
    ∀ h : Harness, h.m.uncontended t → h.count = 0 →
      ∃ m1, loop fuel k t h =
          some (.ok ⟨m1, 0, h.seen ++ (List.replicate k [0, 1, 0]).flatten⟩) ∧
        m1.uncontended t := by
  induction k with
  | zero =>
    intro h hm hc
    refine ⟨h.m, ?_, hm⟩
    obtain ⟨m, count, seen⟩ := h
    simp only at hc
    subst hc
    simp [loop]
  | succ k ih =>
    intro h hm hc
    obtain ⟨m1, hb, hu⟩ := loop_body_uncontended t ht fuel hf h hm hc
    obtain ⟨m2, hl, hu2⟩ := ih ⟨m1, 0, h.seen ++ [0, 1, 0]⟩ hu rfl
    refine ⟨m2, ?_, hu2⟩
    simp only [loop, hb, hl, List.replicate_succ, List.flatten_cons, List.append_assoc]

theorem mutex_fresh_uncontended (t : Nat) (ht : t < 2) (m : mutex) (hm : m ∈ mutex.fresh) :
    m.uncontended t := by
  have h : t = 0 ∨ t = 1 := by omega
  simp only [mutex.fresh, List.mem_cons, List.mem_singleton, List.not_mem_nil, or_false] at hm
  rcases hm with rfl | rfl | rfl <;> rcases h with rfl | rfl <;>
    simp [mutex.uncontended, dekker_mutex.init, peterson_mutex.init, feather_mutex.init,
      AtomicBool2.store, AtomicBool2.load]

/-- C4: for each freshly built lock (Dekker, Peterson, spin), each participant
id `t` in `{0, 1}` and each iteration count `k`, `loop(t, m)` run alone from
counter 0, given fuel for the three accesses of an uncontended `lock`, ends
normally (no `assert_fail`), the counter values read at the check points are
0, 1, 0 in every iteration, and the counter is 0 at the end. -/
theorem loop_uncontended (m0 : mutex) (hm : m0 ∈ mutex.fresh) (t : Nat) (ht : t < 2)
    (k fuel : Nat) (hf : 3 ≤ fuel) :
    ∃ m1, loop fuel k t ⟨m0, 0, []⟩ =
      some (.ok ⟨m1, 0, (List.replicate k [0, 1, 0]).flatten⟩) := by
  obtain ⟨m1, h1, _⟩ := loop_uncontended_from t ht fuel hf k ⟨m0, 0, []⟩
    (mutex_fresh_uncontended t ht m0 hm) rfl
  exact ⟨m1, by simpa using h1⟩

/-- Witness for C4: participant 1 running two iterations on the Dekker lock. -/
theorem loop_uncontended_witness :
    loop 3 2 1 ⟨.dekker dekker_mutex.init, 0, []⟩ =
      some (.ok ⟨.dekker ⟨⟨false, false⟩, 0⟩, 0, [0, 1, 0, 0, 1, 0]⟩) ∧
    ∃ m1, loop 3 2 1 ⟨.dekker dekker_mutex.init, 0, []⟩ =
      some (.ok ⟨m1, 0, (List.replicate 2 [0, 1, 0]).flatten⟩) :=
  ⟨by rfl, loop_uncontended (.dekker dekker_mutex.init) (by decide) 1 (by decide) 2 3
    (by decide)⟩

/-! ### Progress under fair schedules -/

/-- Progress rule for fair schedules: if every step keeps the invariant, the
helpful participant's step lowers the rank, and any other step lowers it or
keeps both rank and helpful participant, then along a schedule that always
schedules the helpful participant again the rank reaches zero. -/
theorem fair_progress {S : Type} (step : Nat → S → S) (Inv : S → Prop) (rank helpful : S → Nat)
    (hinv : ∀ i s, Inv s → Inv (step i s))
    (hhelp : ∀ s, Inv s → rank s ≠ 0 → rank (step (helpful s) s) < rank s)
    (hother : ∀ i s, Inv s → rank s ≠ 0 → i ≠ helpful s →
      rank (step i s) < rank s ∨ (rank (step i s) = rank s ∧ helpful (step i s) = helpful s))
    (σ : Nat → Nat) (s0 : S) (h0 : Inv s0)
    (fair : ∀ n, rank (exec step σ n s0) ≠ 0 → ∃ k, n ≤ k ∧ σ k = helpful (exec step σ n s0)) :
    ∃ n, rank (exec step σ n s0) = 0 := by
  have hI : ∀ n, Inv (exec step σ n s0) := by
    intro n
    induction n with
    | zero => exact h0
    | succ n ih => exact hinv _ _ ih
  -- between `n` and the next turn of the helpful participant
  have hB : ∀ n, rank (exec step σ n s0) ≠ 0 →
      ∃ n1, rank (exec step σ n1 s0) < rank (exec step σ n s0) := by
    intro n hn
    obtain ⟨k, hk, hσ⟩ := fair n hn
    have key : ∀ d, n + d ≤ k →
        (∃ n1, rank (exec step σ n1 s0) < rank (exec step σ n s0)) ∨
        (rank (exec step σ (n + d) s0) = rank (exec step σ n s0) ∧
          helpful (exec step σ (n + d) s0) = helpful (exec step σ n s0)) := by
      intro d
      induction d with
      | zero => intro _; exact Or.inr ⟨rfl, rfl⟩
      | succ d ih =>
        intro hd
        rcases ih (by omega) with h | ⟨hr, hh⟩
        · exact Or.inl h
        · have hne : rank (exec step σ (n + d) s0) ≠ 0 := by rw [hr]; exact hn
          by_cases hs : σ (n + d) = helpful (exec step σ (n + d) s0)
          · left
            refine ⟨n + d + 1, ?_⟩
            show rank (step (σ (n + d)) (exec step σ (n + d) s0)) < _
            rw [hs, ← hr]
            exact hhelp _ (hI _) hne
          · rcases hother (σ (n + d)) _ (hI _) hne hs with h | ⟨h1, h2⟩
            · left
              refine ⟨n + d + 1, ?_⟩
              show rank (step (σ (n + d)) (exec step σ (n + d) s0)) < _
              rw [← hr]; exact h
            · right
              constructor
              · show rank (step (σ (n + d)) (exec step σ (n + d) s0)) = _
                rw [h1, hr]
              · show helpful (step (σ (n + d)) (exec step σ (n + d) s0)) = _
                rw [h2, hh]
    rcases key (k - n) (by omega) with h | ⟨hr, hh⟩
    · exact h
    · have e : n + (k - n) = k := by omega
      rw [e] at hr hh
      refine ⟨k + 1, ?_⟩
      show rank (step (σ k) (exec step σ k s0)) < _
      rw [hσ, ← hh, ← hr]
      exact hhelp _ (hI _) (by rw [hr]; exact hn)
  have hA : ∀ v n, rank (exec step σ n s0) ≤ v → ∃ n1, rank (exec step σ n1 s0) = 0 := by
    intro v
    induction v with
    | zero => intro n hn; exact ⟨n, by omega⟩
    | succ v ih =>
      intro n hn
      by_cases hz : rank (exec step σ n s0) = 0
      · exact ⟨n, hz⟩
      · obtain ⟨n1, h1⟩ := hB n hz
        exact ih n1 (by omega)
  exact hA _ 0 (le_refl _)


/-- Invariants are kept along every execution. -/
theorem exec_inv {S : Type} (step : Nat → S → S) (Inv : S → Prop)
    (hinv : ∀ i s, Inv s → Inv (step i s)) (σ : Nat → Nat) (s0 : S) (h0 : Inv s0) (n : Nat) :
    Inv (exec step σ n s0) := by
  induction n with
  | zero => exact h0
  | succ n ih => exact hinv _ _ ih

/-- A step of a bounded run keeps an invariant that every access of a running
participant keeps. -/
theorem run_step_inv {S : Type} (step : Nat → S → S) (ends : Nat → S → Bool)
    (inv : S → Bool → Bool → Prop)
    (hinv : ∀ s d0 d1 e, inv s d0 d1 →
      (d0 = false → (ends 0 s = false → e = false) → inv (step 0 s) e d1) ∧
      (d1 = false → (ends 1 s = false → e = false) → inv (step 1 s) d0 e))
    (i : Nat) (r : Run S) (h : inv r.sys (decide (r.rem0 = 0)) (decide (r.rem1 = 0))) :
    inv (Run.step step ends i r).sys (decide ((Run.step step ends i r).rem0 = 0))
      (decide ((Run.step step ends i r).rem1 = 0)) := by
  unfold Run.step
  by_cases hi0 : i = 0
  · simp only [hi0, if_true]
    by_cases hr : r.rem0 = 0
    · simp only [hr, if_true]
      rw [hr] at h
      exact h
    · simp only [hr, if_false]
      refine (hinv r.sys _ _ _ h).1 (decide_eq_false hr) ?_
      intro he
      simp only [he, Bool.false_eq_true, if_false]
      exact decide_eq_false hr
  · by_cases hi1 : i = 1
    · simp only [hi1, if_true, one_ne_zero, if_false]
      by_cases hr : r.rem1 = 0
      · simp only [hr, if_true]
        rw [hr] at h
        exact h
      · simp only [hr, if_false]
        refine (hinv r.sys _ _ _ h).2 (decide_eq_false hr) ?_
        intro he
        simp only [he, Bool.false_eq_true, if_false]
        exact decide_eq_false hr
    · simp only [hi0, hi1, if_false]
      exact h


theorem run_step0 {S : Type} (step : Nat → S → S) (ends : Nat → S → Bool) (r : Run S)
    (h : r.rem0 ≠ 0) :
    Run.step step ends 0 r =
      { sys := step 0 r.sys, rem0 := if ends 0 r.sys then r.rem0 - 1 else r.rem0,
        rem1 := r.rem1 } := by
  simp [Run.step, h]

theorem run_step1 {S : Type} (step : Nat → S → S) (ends : Nat → S → Bool) (r : Run S)
    (h : r.rem1 ≠ 0) :
    Run.step step ends 1 r =
      { sys := step 1 r.sys, rem0 := r.rem0,
        rem1 := if ends 1 r.sys then r.rem1 - 1 else r.rem1 } := by
  simp [Run.step, h]

theorem run_step_idle {S : Type} (step : Nat → S → S) (ends : Nat → S → Bool) (i : Nat)
    (r : Run S) (h : (i = 0 ∧ r.rem0 = 0) ∨ (i = 1 ∧ r.rem1 = 0) ∨ (i ≠ 0 ∧ i ≠ 1)) :
    Run.step step ends i r = r := by
  rcases h with ⟨h1, h2⟩ | ⟨h1, h2⟩ | ⟨h1, h2⟩ <;> simp [Run.step, h1, h2]

/-- Bounded runs finish under fair schedules, given a progress measure on the
lock: an invariant `inv`, a `minor` measure below 32 and a `helpful`
participant such that the helpful participant is running and its accesses
lower `minor` (or end an iteration), while the other participant's accesses
do not end an iteration and lower `minor` or keep it together with the helpful
participant. -/
theorem run_fair_termination {S : Type} (step : Nat → S → S) (ends : Nat → S → Bool)
    (inv : S → Bool → Bool → Prop) (minor helpful : S → Bool → Bool → Nat)
    (hinv : ∀ s d0 d1 e, inv s d0 d1 →
      (d0 = false → (ends 0 s = false → e = false) → inv (step 0 s) e d1) ∧
      (d1 = false → (ends 1 s = false → e = false) → inv (step 1 s) d0 e))
    (hbound : ∀ s d0 d1, inv s d0 d1 → minor s d0 d1 < 32)
    (hzero : ∀ s, minor s true true = 0)
    (hhelp : ∀ s d0 d1, inv s d0 d1 → (d0 = false ∨ d1 = false) →
      (helpful s d0 d1 = 0 ∧ d0 = false ∧
        (ends 0 s = false → minor (step 0 s) d0 d1 < minor s d0 d1)) ∨
      (helpful s d0 d1 = 1 ∧ d1 = false ∧
        (ends 1 s = false → minor (step 1 s) d0 d1 < minor s d0 d1)))
    (hother : ∀ s d0 d1, inv s d0 d1 →
      (d0 = false → helpful s d0 d1 ≠ 0 → ends 0 s = false ∧
        (minor (step 0 s) d0 d1 < minor s d0 d1 ∨
          (minor (step 0 s) d0 d1 = minor s d0 d1 ∧
            helpful (step 0 s) d0 d1 = helpful s d0 d1))) ∧
      (d1 = false → helpful s d0 d1 ≠ 1 → ends 1 s = false ∧
        (minor (step 1 s) d0 d1 < minor s d0 d1 ∨
          (minor (step 1 s) d0 d1 = minor s d0 d1 ∧
            helpful (step 1 s) d0 d1 = helpful s d0 d1))))
    (σ : Nat → Nat) (r : Run S)
    (h0 : inv r.sys (decide (r.rem0 = 0)) (decide (r.rem1 = 0)))
    (fair : Run.Fair (Run.step step ends) σ r) :
    ∃ n, (exec (Run.step step ends) σ n r).finished := by
  have hstep := run_step_inv step ends inv hinv
  have hnz : ∀ x : Run S, Run.rank minor x ≠ 0 →
      decide (x.rem0 = 0) = false ∨ decide (x.rem1 = 0) = false := by
    intro x hx
    by_cases h0 : x.rem0 = 0
    · by_cases h1 : x.rem1 = 0
      · exfalso
        apply hx
        simp [Run.rank, h0, h1, hzero]
      · exact Or.inr (decide_eq_false h1)
    · exact Or.inl (decide_eq_false h0)
  have key := fair_progress (Run.step step ends)
    (fun x => inv x.sys (decide (x.rem0 = 0)) (decide (x.rem1 = 0)))
    (Run.rank minor)
    (fun x => helpful x.sys (decide (x.rem0 = 0)) (decide (x.rem1 = 0)))
    (fun i x hx => hstep i x hx) ?_ ?_ σ r h0 ?_
  · obtain ⟨n, hn⟩ := key
    refine ⟨n, ?_⟩
    unfold Run.rank at hn
    constructor <;> omega
  · -- the helpful participant's step
    intro x hx hr
    have hpost := fun i => hstep i x hx
    rcases hhelp x.sys _ _ hx (hnz x hr) with ⟨hh, hd, hm⟩ | ⟨hh, hd, hm⟩
    · have hr0 : x.rem0 ≠ 0 := of_decide_eq_false hd
      have hp := hbound _ _ _ (hpost 0)
      simp only [hh]
      rw [run_step0 step ends x hr0] at hp ⊢
      unfold Run.rank
      cases he : ends 0 x.sys
      · have := hm he
        simp only [he, Bool.false_eq_true, if_false] at hp ⊢
        omega
      · simp only [he, if_true] at hp ⊢
        omega
    · have hr1 : x.rem1 ≠ 0 := of_decide_eq_false hd
      have hp := hbound _ _ _ (hpost 1)
      simp only [hh]
      rw [run_step1 step ends x hr1] at hp ⊢
      unfold Run.rank
      cases he : ends 1 x.sys
      · have := hm he
        simp only [he, Bool.false_eq_true, if_false] at hp ⊢
        omega
      · simp only [he, if_true] at hp ⊢
        omega
  · -- a step of the other participant
    intro i x hx hr hi
    by_cases hi0 : i = 0
    · subst hi0
      by_cases hr0 : x.rem0 = 0
      · right
        rw [run_step_idle step ends 0 x (Or.inl ⟨rfl, hr0⟩)]
        exact ⟨rfl, rfl⟩
      · obtain ⟨he, hm⟩ := (hother x.sys _ _ hx).1 (decide_eq_false hr0) (Ne.symm hi)
        rw [run_step0 step ends x hr0]
        unfold Run.rank
        simp only [he, Bool.false_eq_true, if_false]
        rcases hm with hm | ⟨hm1, hm2⟩
        · left; omega
        · right; exact ⟨by omega, hm2⟩
    · by_cases hi1 : i = 1
      · subst hi1
        by_cases hr1 : x.rem1 = 0
        · right
          rw [run_step_idle step ends 1 x (Or.inr (Or.inl ⟨rfl, hr1⟩))]
          exact ⟨rfl, rfl⟩
        · obtain ⟨he, hm⟩ := (hother x.sys _ _ hx).2 (decide_eq_false hr1) (Ne.symm hi)
          rw [run_step1 step ends x hr1]
          unfold Run.rank
          simp only [he, Bool.false_eq_true, if_false]
          rcases hm with hm | ⟨hm1, hm2⟩
          · left; omega
          · right; exact ⟨by omega, hm2⟩
      · right
        rw [run_step_idle step ends i x (Or.inr (Or.inr ⟨hi0, hi1⟩))]
        exact ⟨rfl, rfl⟩
  · -- the helpful participant is scheduled again
    intro n hr
    have hx := exec_inv (Run.step step ends)
      (fun x => inv x.sys (decide (x.rem0 = 0)) (decide (x.rem1 = 0)))
      (fun i x hx => hstep i x hx) σ r h0 n
    rcases hhelp _ _ _ hx (hnz _ hr) with ⟨hh, hd, _⟩ | ⟨hh, hd, _⟩
    · obtain ⟨k, hk, hσ⟩ := fair n 0 (by decide) (by
        simp only [Run.rem, if_true]; exact of_decide_eq_false hd)
      exact ⟨k, hk, by rw [hσ]; exact hh.symm⟩
    · obtain ⟨k, hk, hσ⟩ := fair n 1 (by decide) (by
        simp only [Run.rem, one_ne_zero, if_false]; exact of_decide_eq_false hd)
      exact ⟨k, hk, by rw [hσ]; exact hh.symm⟩


/-! ### Dekker: progress measure -/

theorem dekker_run_inv_step (w0 w1 : Bool) (t : Fin 2) (p0 p1 : DekkerPc) (d0 d1 e : Bool) :
    (DekkerSys.mk ⟨⟨w0, w1⟩, t.val⟩ p0 p1).RunInv d0 d1 →
    (d0 = false → (DekkerSys.ends 0 (DekkerSys.mk ⟨⟨w0, w1⟩, t.val⟩ p0 p1) = false → e = false) →
      (DekkerSys.step 0 (DekkerSys.mk ⟨⟨w0, w1⟩, t.val⟩ p0 p1)).RunInv e d1) ∧
    (d1 = false → (DekkerSys.ends 1 (DekkerSys.mk ⟨⟨w0, w1⟩, t.val⟩ p0 p1) = false → e = false) →
      (DekkerSys.step 1 (DekkerSys.mk ⟨⟨w0, w1⟩, t.val⟩ p0 p1)).RunInv d0 e) := by
  revert w0 w1 t p0 p1 d0 d1 e
  decide

theorem dekker_run_helpful (w0 w1 : Bool) (t : Fin 2) (p0 p1 : DekkerPc) (d0 d1 : Bool) :
    (DekkerSys.mk ⟨⟨w0, w1⟩, t.val⟩ p0 p1).RunInv d0 d1 → (d0 = false ∨ d1 = false) →
    ((DekkerSys.mk ⟨⟨w0, w1⟩, t.val⟩ p0 p1).helpful d0 d1 = 0 ∧ d0 = false ∧
      (DekkerSys.ends 0 (DekkerSys.mk ⟨⟨w0, w1⟩, t.val⟩ p0 p1) = false →
        (DekkerSys.step 0 (DekkerSys.mk ⟨⟨w0, w1⟩, t.val⟩ p0 p1)).minor d0 d1 <
          (DekkerSys.mk ⟨⟨w0, w1⟩, t.val⟩ p0 p1).minor d0 d1)) ∨
    ((DekkerSys.mk ⟨⟨w0, w1⟩, t.val⟩ p0 p1).helpful d0 d1 = 1 ∧ d1 = false ∧
      (DekkerSys.ends 1 (DekkerSys.mk ⟨⟨w0, w1⟩, t.val⟩ p0 p1) = false →
        (DekkerSys.step 1 (DekkerSys.mk ⟨⟨w0, w1⟩, t.val⟩ p0 p1)).minor d0 d1 <
          (DekkerSys.mk ⟨⟨w0, w1⟩, t.val⟩ p0 p1).minor d0 d1)) := by
  revert w0 w1 t p0 p1 d0 d1
  decide

theorem dekker_run_other (w0 w1 : Bool) (t : Fin 2) (p0 p1 : DekkerPc) (d0 d1 : Bool) :
    (DekkerSys.mk ⟨⟨w0, w1⟩, t.val⟩ p0 p1).RunInv d0 d1 →
    (d0 = false → (DekkerSys.mk ⟨⟨w0, w1⟩, t.val⟩ p0 p1).helpful d0 d1 ≠ 0 →
      DekkerSys.ends 0 (DekkerSys.mk ⟨⟨w0, w1⟩, t.val⟩ p0 p1) = false ∧
      ((DekkerSys.step 0 (DekkerSys.mk ⟨⟨w0, w1⟩, t.val⟩ p0 p1)).minor d0 d1 <
          (DekkerSys.mk ⟨⟨w0, w1⟩, t.val⟩ p0 p1).minor d0 d1 ∨
        ((DekkerSys.step 0 (DekkerSys.mk ⟨⟨w0, w1⟩, t.val⟩ p0 p1)).minor d0 d1 =
            (DekkerSys.mk ⟨⟨w0, w1⟩, t.val⟩ p0 p1).minor d0 d1 ∧
          (DekkerSys.step 0 (DekkerSys.mk ⟨⟨w0, w1⟩, t.val⟩ p0 p1)).helpful d0 d1 =
            (DekkerSys.mk ⟨⟨w0, w1⟩, t.val⟩ p0 p1).helpful d0 d1))) ∧
    (d1 = false → (DekkerSys.mk ⟨⟨w0, w1⟩, t.val⟩ p0 p1).helpful d0 d1 ≠ 1 →
      DekkerSys.ends 1 (DekkerSys.mk ⟨⟨w0, w1⟩, t.val⟩ p0 p1) = false ∧
      ((DekkerSys.step 1 (DekkerSys.mk ⟨⟨w0, w1⟩, t.val⟩ p0 p1)).minor d0 d1 <
          (DekkerSys.mk ⟨⟨w0, w1⟩, t.val⟩ p0 p1).minor d0 d1 ∨
        ((DekkerSys.step 1 (DekkerSys.mk ⟨⟨w0, w1⟩, t.val⟩ p0 p1)).minor d0 d1 =
            (DekkerSys.mk ⟨⟨w0, w1⟩, t.val⟩ p0 p1).minor d0 d1 ∧
          (DekkerSys.step 1 (DekkerSys.mk ⟨⟨w0, w1⟩, t.val⟩ p0 p1)).helpful d0 d1 =
            (DekkerSys.mk ⟨⟨w0, w1⟩, t.val⟩ p0 p1).helpful d0 d1))) := by
  revert w0 w1 t p0 p1 d0 d1
  decide


/-! ### Peterson: progress measure -/

theorem peterson_run_inv_step (w0 w1 : Bool) (t : Fin 2) (p0 p1 : PetersonPc)
    (d0 d1 e : Bool) :
    (PetersonSys.mk ⟨⟨w0, w1⟩, t.val⟩ p0 p1).RunInv d0 d1 →
    (d0 = false →
      (PetersonSys.ends 0 (PetersonSys.mk ⟨⟨w0, w1⟩, t.val⟩ p0 p1) = false → e = false) →
      (PetersonSys.step 0 (PetersonSys.mk ⟨⟨w0, w1⟩, t.val⟩ p0 p1)).RunInv e d1) ∧
    (d1 = false →
      (PetersonSys.ends 1 (PetersonSys.mk ⟨⟨w0, w1⟩, t.val⟩ p0 p1) = false → e = false) →
      (PetersonSys.step 1 (PetersonSys.mk ⟨⟨w0, w1⟩, t.val⟩ p0 p1)).RunInv d0 e) := by
  revert w0 w1 t p0 p1 d0 d1 e
  decide

theorem peterson_run_helpful (w0 w1 : Bool) (t : Fin 2) (p0 p1 : PetersonPc) (d0 d1 : Bool) :
    (PetersonSys.mk ⟨⟨w0, w1⟩, t.val⟩ p0 p1).RunInv d0 d1 → (d0 = false ∨ d1 = false) →
    ((PetersonSys.mk ⟨⟨w0, w1⟩, t.val⟩ p0 p1).helpful d0 d1 = 0 ∧ d0 = false ∧
      (PetersonSys.ends 0 (PetersonSys.mk ⟨⟨w0, w1⟩, t.val⟩ p0 p1) = false →
        (PetersonSys.step 0 (PetersonSys.mk ⟨⟨w0, w1⟩, t.val⟩ p0 p1)).minor d0 d1 <
          (PetersonSys.mk ⟨⟨w0, w1⟩, t.val⟩ p0 p1).minor d0 d1)) ∨
    ((PetersonSys.mk ⟨⟨w0, w1⟩, t.val⟩ p0 p1).helpful d0 d1 = 1 ∧ d1 = false ∧
      (PetersonSys.ends 1 (PetersonSys.mk ⟨⟨w0, w1⟩, t.val⟩ p0 p1) = false →
        (PetersonSys.step 1 (PetersonSys.mk ⟨⟨w0, w1⟩, t.val⟩ p0 p1)).minor d0 d1 <
          (PetersonSys.mk ⟨⟨w0, w1⟩, t.val⟩ p0 p1).minor d0 d1)) := by
  revert w0 w1 t p0 p1 d0 d1
  decide

theorem peterson_run_other (w0 w1 : Bool) (t : Fin 2) (p0 p1 : PetersonPc) (d0 d1 : Bool) :
    (PetersonSys.mk ⟨⟨w0, w1⟩, t.val⟩ p0 p1).RunInv d0 d1 →
    (d0 = false → (PetersonSys.mk ⟨⟨w0, w1⟩, t.val⟩ p0 p1).helpful d0 d1 ≠ 0 →
      PetersonSys.ends 0 (PetersonSys.mk ⟨⟨w0, w1⟩, t.val⟩ p0 p1) = false ∧
      ((PetersonSys.step 0 (PetersonSys.mk ⟨⟨w0, w1⟩, t.val⟩ p0 p1)).minor d0 d1 <
          (PetersonSys.mk ⟨⟨w0, w1⟩, t.val⟩ p0 p1).minor d0 d1 ∨
        ((PetersonSys.step 0 (PetersonSys.mk ⟨⟨w0, w1⟩, t.val⟩ p0 p1)).minor d0 d1 =
            (PetersonSys.mk ⟨⟨w0, w1⟩, t.val⟩ p0 p1).minor d0 d1 ∧
          (PetersonSys.step 0 (PetersonSys.mk ⟨⟨w0, w1⟩, t.val⟩ p0 p1)).helpful d0 d1 =
            (PetersonSys.mk ⟨⟨w0, w1⟩, t.val⟩ p0 p1).helpful d0 d1))) ∧
    (d1 = false → (PetersonSys.mk ⟨⟨w0, w1⟩, t.val⟩ p0 p1).helpful d0 d1 ≠ 1 →
      PetersonSys.ends 1 (PetersonSys.mk ⟨⟨w0, w1⟩, t.val⟩ p0 p1) = false ∧
      ((PetersonSys.step 1 (PetersonSys.mk ⟨⟨w0, w1⟩, t.val⟩ p0 p1)).minor d0 d1 <
          (PetersonSys.mk ⟨⟨w0, w1⟩, t.val⟩ p0 p1).minor d0 d1 ∨
        ((PetersonSys.step 1 (PetersonSys.mk ⟨⟨w0, w1⟩, t.val⟩ p0 p1)).minor d0 d1 =
            (PetersonSys.mk ⟨⟨w0, w1⟩, t.val⟩ p0 p1).minor d0 d1 ∧
          (PetersonSys.step 1 (PetersonSys.mk ⟨⟨w0, w1⟩, t.val⟩ p0 p1)).helpful d0 d1 =
            (PetersonSys.mk ⟨⟨w0, w1⟩, t.val⟩ p0 p1).helpful d0 d1))) := by
  revert w0 w1 t p0 p1 d0 d1
  decide

theorem dekker_run_bound (w0 w1 : Bool) (t : Fin 2) (p0 p1 : DekkerPc) (d0 d1 : Bool) :
    (DekkerSys.mk ⟨⟨w0, w1⟩, t.val⟩ p0 p1).minor d0 d1 < 32 := by
  revert w0 w1 t p0 p1 d0 d1
  decide

theorem peterson_run_bound (w0 w1 : Bool) (t : Fin 2) (p0 p1 : PetersonPc) (d0 d1 : Bool) :
    (PetersonSys.mk ⟨⟨w0, w1⟩, t.val⟩ p0 p1).minor d0 d1 < 32 := by
  revert w0 w1 t p0 p1 d0 d1
  decide


/-! ### Progress of bounded runs -/

theorem dekker_fair_termination (σ : Nat → Nat) (r : Run DekkerSys)
    (h0 : r.sys.RunInv (decide (r.rem0 = 0)) (decide (r.rem1 = 0)))
    (fair : Run.Fair DekkerSys.runStep σ r) :
    ∃ n, (exec DekkerSys.runStep σ n r).finished := by
  refine run_fair_termination DekkerSys.step DekkerSys.ends DekkerSys.RunInv DekkerSys.minor
    DekkerSys.helpful ?_ ?_ ?_ ?_ ?_ σ r h0 fair
  · intro s d0 d1 e h
    exact dekker_run_inv_step s.m.want.e0 s.m.want.e1 ⟨s.m.turn, h.2.2.2.1⟩ s.pc0 s.pc1 d0 d1 e h
  · intro s d0 d1 h
    exact dekker_run_bound s.m.want.e0 s.m.want.e1 ⟨s.m.turn, h.2.2.2.1⟩ s.pc0 s.pc1 d0 d1
  · intro s
    rfl
  · intro s d0 d1 h
    exact dekker_run_helpful s.m.want.e0 s.m.want.e1 ⟨s.m.turn, h.2.2.2.1⟩ s.pc0 s.pc1 d0 d1 h
  · intro s d0 d1 h
    exact dekker_run_other s.m.want.e0 s.m.want.e1 ⟨s.m.turn, h.2.2.2.1⟩ s.pc0 s.pc1 d0 d1 h

theorem peterson_fair_termination (σ : Nat → Nat) (r : Run PetersonSys)
    (h0 : r.sys.RunInv (decide (r.rem0 = 0)) (decide (r.rem1 = 0)))
    (fair : Run.Fair PetersonSys.runStep σ r) :
    ∃ n, (exec PetersonSys.runStep σ n r).finished := by
  refine run_fair_termination PetersonSys.step PetersonSys.ends PetersonSys.RunInv
    PetersonSys.minor PetersonSys.helpful ?_ ?_ ?_ ?_ ?_ σ r h0 fair
  · intro s d0 d1 e h
    exact peterson_run_inv_step s.m.flag.e0 s.m.flag.e1 ⟨s.m.turn, h.2.2.2.2.1⟩ s.pc0 s.pc1
      d0 d1 e h
  · intro s d0 d1 h
    exact peterson_run_bound s.m.flag.e0 s.m.flag.e1 ⟨s.m.turn, h.2.2.2.2.1⟩ s.pc0 s.pc1 d0 d1
  · intro s
    rfl
  · intro s d0 d1 h
    exact peterson_run_helpful s.m.flag.e0 s.m.flag.e1 ⟨s.m.turn, h.2.2.2.2.1⟩ s.pc0 s.pc1
      d0 d1 h
  · intro s d0 d1 h
    exact peterson_run_other s.m.flag.e0 s.m.flag.e1 ⟨s.m.turn, h.2.2.2.2.1⟩ s.pc0 s.pc1
      d0 d1 h

theorem dekker_run_inv_of_reachable (n : Nat) (r : Run DekkerSys)
    (h : DekkerSys.RunReachable n r) :
    r.sys.RunInv (decide (r.rem0 = 0)) (decide (r.rem1 = 0)) := by
  induction h with
  | init =>
    show DekkerSys.init.RunInv (decide (n = 0)) (decide (n = 0))
    cases decide (n = 0) <;> decide
  | step i r _ _ ih =>
    refine run_step_inv DekkerSys.step DekkerSys.ends DekkerSys.RunInv ?_ i r ih
    intro s d0 d1 e h
    exact dekker_run_inv_step s.m.want.e0 s.m.want.e1 ⟨s.m.turn, h.2.2.2.1⟩ s.pc0 s.pc1 d0 d1 e h

theorem peterson_run_inv_of_reachable (n : Nat) (r : Run PetersonSys)
    (h : PetersonSys.RunReachable n r) :
    r.sys.RunInv (decide (r.rem0 = 0)) (decide (r.rem1 = 0)) := by
  induction h with
  | init =>
    show PetersonSys.init.RunInv (decide (n = 0)) (decide (n = 0))
    cases decide (n = 0) <;> decide
  | step i r _ _ ih =>
    refine run_step_inv PetersonSys.step PetersonSys.ends PetersonSys.RunInv ?_ i r ih
    intro s d0 d1 e h
    exact peterson_run_inv_step s.m.flag.e0 s.m.flag.e1 ⟨s.m.turn, h.2.2.2.2.1⟩ s.pc0 s.pc1
      d0 d1 e h

/-- The alternating schedule schedules both participants again and again. -/
theorem roundRobin_fair (n i : Nat) (hi : i < 2) : ∃ k, n ≤ k ∧ roundRobin k = i := by
  unfold roundRobin
  by_cases h : n % 2 = i
  · exact ⟨n, le_refl n, h⟩
  · exact ⟨n + 1, Nat.le_succ n, by omega⟩

/-- A participant whose iteration count has dropped, or that has left `lock`,
has been through the critical section: `rel` holds from the return of `lock`
to the last access of `unlock`, and can only start to hold on entering the
critical section `cs`. -/
theorem run_enters {S : Type} (step : Nat → S → S) (ends : Nat → S → Bool) (rel cs : S → Prop)
    (h1 : ∀ s, ends 0 s = true → rel s)
    (h2 : ∀ i s, rel (step i s) → rel s ∨ cs (step i s))
    (σ : Nat → Nat) (r : Run S) (hr : ¬ rel r.sys) (n : Nat) :
    ((exec (Run.step step ends) σ n r).rem0 < r.rem0 ∨
      rel (exec (Run.step step ends) σ n r).sys) →
    ∃ k, cs (exec (Run.step step ends) σ k r).sys := by
  induction n with
  | zero =>
    intro h
    rcases h with h | h
    · exact absurd h (lt_irrefl _)
    · exact absurd h hr
  | succ n ih =>
    intro h
    have hx : exec (Run.step step ends) σ (n + 1) r =
        Run.step step ends (σ n) (exec (Run.step step ends) σ n r) := rfl
    generalize exec (Run.step step ends) σ n r = x at ih hx
    by_cases hi0 : σ n = 0
    · by_cases hr0 : x.rem0 = 0
      · rw [hx, hi0, run_step_idle step ends 0 x (Or.inl ⟨rfl, hr0⟩)] at h
        exact ih h
      · have hx2 := hx
        rw [hi0, run_step0 step ends x hr0] at hx2
        rw [hx2] at h
        simp only at h
        rcases h with h | h
        · cases he : ends 0 x.sys
          · simp only [he, Bool.false_eq_true, if_false] at h
            exact ih (Or.inl h)
          · exact ih (Or.inr (h1 _ he))
        · rcases h2 0 x.sys h with h | h
          · exact ih (Or.inr h)
          · exact ⟨n + 1, by rw [hx2]; exact h⟩
    · by_cases hi1 : σ n = 1
      · by_cases hr1 : x.rem1 = 0
        · rw [hx, hi1, run_step_idle step ends 1 x (Or.inr (Or.inl ⟨rfl, hr1⟩))] at h
          exact ih h
        · have hx2 := hx
          rw [hi1, run_step1 step ends x hr1] at hx2
          rw [hx2] at h
          simp only at h
          rcases h with h | h
          · exact ih (Or.inl h)
          · rcases h2 1 x.sys h with h | h
            · exact ih (Or.inr h)
            · exact ⟨n + 1, by rw [hx2]; exact h⟩
      · rw [hx, run_step_idle step ends (σ n) x (Or.inr (Or.inr ⟨hi0, hi1⟩))] at h
        exact ih h

theorem dekker_enters_cs (i : Nat) (s : DekkerSys)
    (h : (DekkerSys.step i s).pc0.releasing = true) :
    s.pc0.releasing = true ∨ (DekkerSys.step i s).pc0 = .cs := by
  obtain ⟨m, p0, p1⟩ := s
  unfold DekkerSys.step at h ⊢
  by_cases hi0 : i = 0
  · subst hi0
    simp only [if_true] at h ⊢
    cases p0 <;> simp_all [dekker_mutex.step, DekkerPc.releasing] <;> split <;> simp_all
  · by_cases hi1 : i = 1
    · subst hi1
      simp only [one_ne_zero, if_false, if_true] at h ⊢
      exact Or.inl h
    · simp only [hi0, hi1, if_false] at h ⊢
      exact Or.inl h

theorem peterson_enters_cs (i : Nat) (s : PetersonSys) (h : (PetersonSys.step i s).pc0 = .cs) :
    s.pc0 = .cs ∨ (PetersonSys.step i s).pc0 = .cs :=
  Or.inr h


/-- C9: with two participants each making `n` iterations of
`lock; critical section; unlock` on the Dekker lock or on the Peterson lock,
under every interleaving that keeps scheduling each participant that still has
iterations to make, both participants complete all their iterations after
finitely many steps; and no reachable state with both participants inside
`lock()` is a deadlock: some continuation brings a participant into the
critical section. -/
theorem progress_under_contention (n : Nat) :
    (∀ σ, Run.Fair DekkerSys.runStep σ (DekkerSys.runInit n) →
      ∃ k, (exec DekkerSys.runStep σ k (DekkerSys.runInit n)).finished) ∧
    (∀ σ, Run.Fair PetersonSys.runStep σ (PetersonSys.runInit n) →
      ∃ k, (exec PetersonSys.runStep σ k (PetersonSys.runInit n)).finished) ∧
    (∀ r, DekkerSys.RunReachable n r → DekkerSys.inLock r 0 → DekkerSys.inLock r 1 →
      ∃ σ k, (exec DekkerSys.runStep σ k r).sys.pc0 = .cs ∨
        (exec DekkerSys.runStep σ k r).sys.pc1 = .cs) ∧
    (∀ r, PetersonSys.RunReachable n r → PetersonSys.inLock r 0 → PetersonSys.inLock r 1 →
      ∃ σ k, (exec PetersonSys.runStep σ k r).sys.pc0 = .cs ∨
        (exec PetersonSys.runStep σ k r).sys.pc1 = .cs) := by
  refine ⟨?_, ?_, ?_, ?_⟩
  · intro σ fair
    exact dekker_fair_termination σ _
      (dekker_run_inv_of_reachable n _ DekkerSys.RunReachable.init) fair
  · intro σ fair
    exact peterson_fair_termination σ _
      (peterson_run_inv_of_reachable n _ PetersonSys.RunReachable.init) fair
  · intro r hr h0 _
    obtain ⟨k, hk⟩ := dekker_fair_termination roundRobin r
      (dekker_run_inv_of_reachable n r hr) (fun m i hi _ => roundRobin_fair m i hi)
    have hlt : (exec DekkerSys.runStep roundRobin k r).rem0 < r.rem0 := by
      have h1 : (exec DekkerSys.runStep roundRobin k r).rem0 = 0 := hk.1
      have h2 : r.rem0 ≠ 0 := h0.1
      omega
    obtain ⟨j, hj⟩ := run_enters DekkerSys.step DekkerSys.ends
      (fun s => s.pc0.releasing = true) (fun s => s.pc0 = .cs)
      (fun s he => by
        have h3 : s.pc0 = .l59 := of_decide_eq_true he
        show s.pc0.releasing = true
        rw [h3]; rfl)
      dekker_enters_cs roundRobin r
      (by have h3 : r.sys.pc0.releasing = false := h0.2
          show ¬ (r.sys.pc0.releasing = true)
          rw [h3]; exact Bool.false_ne_true)
      k (Or.inl hlt)
    exact ⟨roundRobin, j, Or.inl hj⟩
  · intro r hr h0 _
    obtain ⟨k, hk⟩ := peterson_fair_termination roundRobin r
      (peterson_run_inv_of_reachable n r hr) (fun m i hi _ => roundRobin_fair m i hi)
    have hlt : (exec PetersonSys.runStep roundRobin k r).rem0 < r.rem0 := by
      have h1 : (exec PetersonSys.runStep roundRobin k r).rem0 = 0 := hk.1
      have h2 : r.rem0 ≠ 0 := h0.1
      omega
    obtain ⟨j, hj⟩ := run_enters PetersonSys.step PetersonSys.ends
      (fun s => s.pc0 = .cs) (fun s => s.pc0 = .cs)
      (fun s he => of_decide_eq_true he)
      peterson_enters_cs roundRobin r h0.2 k (Or.inl hlt)
    exact ⟨roundRobin, j, Or.inl hj⟩

/-- Witness for C9: the alternating schedule is fair; with one iteration each
it finishes the Dekker run after 22 steps and the Peterson run after 12; and
from the reachable state in which both participants have raised their flags
and stand at the loop test of `dekker_mutex::lock`, a participant reaches the
critical section. -/
theorem progress_under_contention_witness :
    Run.Fair DekkerSys.runStep roundRobin (DekkerSys.runInit 1) ∧
    (exec DekkerSys.runStep roundRobin 22 (DekkerSys.runInit 1)).finished ∧
    (exec PetersonSys.runStep roundRobin 12 (PetersonSys.runInit 1)).finished ∧
    (∃ k, (exec DekkerSys.runStep roundRobin k (DekkerSys.runInit 1)).finished) ∧
    (∃ k, (exec PetersonSys.runStep roundRobin k (PetersonSys.runInit 1)).finished) ∧
    (DekkerSys.runStep 1 (DekkerSys.runStep 0 (DekkerSys.runInit 1))).sys =
      ⟨⟨⟨true, true⟩, 0⟩, .l48, .l48⟩ ∧
    (∃ σ k,
      (exec DekkerSys.runStep σ k
        (DekkerSys.runStep 1 (DekkerSys.runStep 0 (DekkerSys.runInit 1)))).sys.pc0 = .cs ∨
      (exec DekkerSys.runStep σ k
        (DekkerSys.runStep 1 (DekkerSys.runStep 0 (DekkerSys.runInit 1)))).sys.pc1 = .cs) :=
  ⟨fun m i hi _ => roundRobin_fair m i hi,
    ⟨by decide, by decide⟩,
    ⟨by decide, by decide⟩,
    (progress_under_contention 1).1 roundRobin (fun m i hi _ => roundRobin_fair m i hi),
    (progress_under_contention 1).2.1 roundRobin (fun m i hi _ => roundRobin_fair m i hi),
    by decide,
    (progress_under_contention 1).2.2.1 _
      (DekkerSys.RunReachable.step 1 _ (by decide)
        (DekkerSys.RunReachable.step 0 _ (by decide) DekkerSys.RunReachable.init))
      ⟨by decide, by decide⟩ ⟨by decide, by decide⟩⟩

end MutexComparison
